import Mathlib

/-!
# nix-search-cli: `pkg/nixsearch/search.go`

A shallow embedding of the query builder (`formatURL`, `formatQuery`) and of the
response interpreter (`Search`) of `pkg/nixsearch/search.go`, together with models of
the Go standard-library routines they call (`unicode/utf8`, `encoding/json`,
`net/url`, `fmt`).

Go strings and byte slices are sequences of bytes; a byte is a natural number
(below 256 in every string Go can build).
-/

namespace NixSearch

/-! ## Bytes -/

/-- A Go `string` or `[]byte`: a sequence of bytes. -/
abbrev Bytes := List Nat

/-- The bytes of an ASCII literal. -/
def bytes (s : String) : Bytes := s.toList.map Char.toNat

/-! ## unicode/utf8 -/

/-- The constant `utf8.RuneError` (U+FFFD). -/
def RuneError : Nat := 0xFFFD

/-- The constant `utf8.RuneSelf`: bytes below it are single-byte runes. -/
def RuneSelf : Nat := 0x80

/-- The tables `first` and `acceptRanges` of `unicode/utf8`: for a lead byte, the
length of the sequence it starts and the accepted range of the second byte;
`none` for the bytes that start no sequence (0x80-0xC1 and 0xF5-0xFF). -/
def leadInfo (s0 : Nat) : Option (Nat × Nat × Nat) :=
  if 0xC2 ≤ s0 ∧ s0 ≤ 0xDF then some (2, 0x80, 0xBF)
  else if s0 = 0xE0 then some (3, 0xA0, 0xBF)
  else if 0xE1 ≤ s0 ∧ s0 ≤ 0xEC then some (3, 0x80, 0xBF)
  else if s0 = 0xED then some (3, 0x80, 0x9F)
  else if 0xEE ≤ s0 ∧ s0 ≤ 0xEF then some (3, 0x80, 0xBF)
  else if s0 = 0xF0 then some (4, 0x90, 0xBF)
  else if 0xF1 ≤ s0 ∧ s0 ≤ 0xF3 then some (4, 0x80, 0xBF)
  else if s0 = 0xF4 then some (4, 0x80, 0x8F)
  else none

/-- The function `utf8.DecodeRuneInString`: the first rune of `s` and its width in
bytes; `(RuneError, 1)` when `s` starts with an ill-formed sequence and
`(RuneError, 0)` when it is empty. Masks and shifts are written as `%` and `*`. -/
def DecodeRuneInString (s : Bytes) : Nat × Nat :=
  match s with
  | [] => (RuneError, 0)
  | s0 :: t =>
    if s0 < RuneSelf then (s0, 1)
    else
      match leadInfo s0 with
      | none => (RuneError, 1)
      | some (sz, lo, hi) =>
        match t with
        | [] => (RuneError, 1)
        | s1 :: t1 =>
          if s1 < lo ∨ hi < s1 then (RuneError, 1)
          else if sz ≤ 2 then (s0 % 32 * 64 + s1 % 64, 2)
          else
            match t1 with
            | [] => (RuneError, 1)
            | s2 :: t2 =>
              if s2 < 0x80 ∨ 0xBF < s2 then (RuneError, 1)
              else if sz ≤ 3 then (s0 % 16 * 4096 + s1 % 64 * 64 + s2 % 64, 3)
              else
                match t2 with
                | [] => (RuneError, 1)
                | s3 :: _ =>
                  if s3 < 0x80 ∨ 0xBF < s3 then (RuneError, 1)
                  else (s0 % 8 * 262144 + s1 % 64 * 4096 + s2 % 64 * 64 + s3 % 64, 4)

/-- The function `utf8.ValidString`: every rune of `s` decodes without error.
The fuel bounds the number of runes; `s.length` is always enough. -/
def validLoop : Nat → Bytes → Bool
  | 0, s => s.isEmpty
  | _ + 1, [] => true
  | fuel + 1, b :: rest =>
    let r := DecodeRuneInString (b :: rest)
    if r.1 = RuneError ∧ r.2 = 1 then false
    else validLoop fuel (rest.drop (r.2 - 1))

/-- The function `utf8.ValidString`. -/
def ValidString (s : Bytes) : Bool := validLoop s.length s

/-- The function `utf8.AppendRune` on an empty buffer: the UTF-8 encoding of a
rune; surrogates and values above U+10FFFF are written as U+FFFD. -/
def EncodeRune (r : Nat) : Bytes :=
  if r ≤ 0x7F then [r]
  else if r ≤ 0x7FF then [0xC0 + r / 64, 0x80 + r % 64]
  else if 0x10FFFF < r ∨ (0xD800 ≤ r ∧ r ≤ 0xDFFF) then [0xEF, 0xBF, 0xBD]
  else if r ≤ 0xFFFF then [0xE0 + r / 4096, 0x80 + r / 64 % 64, 0x80 + r % 64]
  else [0xF0 + r / 262144, 0x80 + r / 4096 % 64, 0x80 + r / 64 % 64, 0x80 + r % 64]

/-- The bytes of U+FFFD, which `encoding/json` puts for what is not UTF-8. -/
def replacement : Bytes := [0xEF, 0xBF, 0xBD]

/-! ## encoding/json: encoding a string -/

/-- The digit table `"0123456789abcdef"` of `encoding/json`. -/
def hexLower (n : Nat) : Nat := if n < 10 then 0x30 + n else 0x57 + n

/-- The table `htmlSafeSet`: the ASCII bytes `json.Marshal` copies unescaped, which
is every byte from 0x20 to 0x7F except the double quote, the ampersand, the angle
brackets and the backslash. -/
def htmlSafeSet (b : Nat) : Bool :=
  0x20 ≤ b && b < 0x80 && b != 0x22 && b != 0x26 && b != 0x3C && b != 0x3E && b != 0x5C

/-- The escape `appendString` writes for an ASCII byte outside `htmlSafeSet` (as of
Go 1.22; earlier releases write the backspace and the form feed as `\u0008` and
`\u000c`, which read back as the same bytes). -/
def escapeByte (b : Nat) : Bytes :=
  if b = 0x5C ∨ b = 0x22 then [0x5C, b]
  else if b = 0x08 then [0x5C, 0x62]
  else if b = 0x0C then [0x5C, 0x66]
  else if b = 0x0A then [0x5C, 0x6E]
  else if b = 0x0D then [0x5C, 0x72]
  else if b = 0x09 then [0x5C, 0x74]
  else [0x5C, 0x75, 0x30, 0x30, hexLower (b / 16), hexLower (b % 16)]

/-- The loop of `appendString` (with `escapeHTML` set, as `json.Marshal` sets it):
the content of the string literal for `src`. Each round consumes at least one
byte of `src`, so `src.length` rounds of fuel are always enough. -/
def appendStringLoop : Nat → Bytes → Bytes
  | 0, _ => []
  | _ + 1, [] => []
  | fuel + 1, b :: rest =>
    if b < RuneSelf then
      if htmlSafeSet b then b :: appendStringLoop fuel rest
      else escapeByte b ++ appendStringLoop fuel rest
    else
      let r := DecodeRuneInString (b :: rest)
      if r.1 = RuneError ∧ r.2 = 1 then
        bytes "\\ufffd" ++ appendStringLoop fuel rest
      else if r.1 = 0x2028 ∨ r.1 = 0x2029 then
        bytes "\\u202" ++ hexLower (r.1 % 16) :: appendStringLoop fuel (rest.drop (r.2 - 1))
      else
        (b :: rest).take r.2 ++ appendStringLoop fuel (rest.drop (r.2 - 1))

/-- The function `appendString` of `encoding/json`: the JSON string literal for
`src`, quotes included. -/
def appendString (src : Bytes) : Bytes :=
  0x22 :: (appendStringLoop src.length src ++ [0x22])

/-- The coercion to valid UTF-8 that `appendString` applies while it escapes: a
byte that starts no well-formed sequence becomes U+FFFD, everything else is kept.
The fuel is spent as in `appendStringLoop`. -/
def toValidLoop : Nat → Bytes → Bytes
  | 0, _ => []
  | _ + 1, [] => []
  | fuel + 1, b :: rest =>
    if b < RuneSelf then b :: toValidLoop fuel rest
    else
      let r := DecodeRuneInString (b :: rest)
      if r.1 = RuneError ∧ r.2 = 1 then replacement ++ toValidLoop fuel rest
      else (b :: rest).take r.2 ++ toValidLoop fuel (rest.drop (r.2 - 1))

/-- The string `s` with every byte that starts no well-formed UTF-8 sequence
replaced by U+FFFD. -/
def toValidUTF8 (s : Bytes) : Bytes := toValidLoop s.length s

/-! ## encoding/json: reading a document -/

/-- The tokens of a JSON text. A string token holds the content as
`encoding/json` unquotes it; a number token holds the literal. -/
inductive Token where
  | lbrace | rbrace | lbrack | rbrack | colon | comma
  | str (s : Bytes)
  | num (lit : Bytes)
  | tru | fls | null
  deriving DecidableEq, Repr

/-- Where the scanner stands inside a number literal. -/
inductive NumSt where
  | minus | zero | int | dot | frac | e | esign | exp
  deriving DecidableEq, Repr

/-- A number literal may end in this state. -/
def NumSt.final : NumSt → Bool
  | .zero | .int | .frac | .exp => true
  | _ => false

/-- The state of the scanner between two bytes of the input. -/
inductive LexSt where
  /-- Between two tokens. -/
  | top
  /-- Inside a string literal; `acc` is the content read so far, unquoted. -/
  | str (acc : Bytes)
  /-- Inside a string literal, right after the escape of a high surrogate `h`. -/
  | strHi (acc : Bytes) (h : Nat)
  /-- After a backslash (`h`: a high surrogate escaped right before it). -/
  | esc (acc : Bytes) (h : Option Nat)
  /-- After a backslash and `u`, with `n` hex digits read, of value `v`. -/
  | uni (acc : Bytes) (h : Option Nat) (n v : Nat)
  /-- Inside a multi-byte UTF-8 sequence: `pend` holds its bytes so far, `need`
  more are due and the next one has to lie between `lo` and `hi`. -/
  | cont (acc pend : Bytes) (need lo hi : Nat)
  /-- Inside a number literal. -/
  | num (st : NumSt) (lit : Bytes)
  /-- Inside `true`, `false` or `null`, with `expect` still to come. -/
  | word (expect : Bytes) (tok : Token)
  /-- The input is not a JSON text. -/
  | bad
  deriving DecidableEq, Repr

/-- The value of a hexadecimal digit, of either case. -/
def hexVal (c : Nat) : Option Nat :=
  if 0x30 ≤ c ∧ c ≤ 0x39 then some (c - 0x30)
  else if 0x61 ≤ c ∧ c ≤ 0x66 then some (c - 0x57)
  else if 0x41 ≤ c ∧ c ≤ 0x46 then some (c - 0x37)
  else none

/-- A decimal digit. -/
def isDigit (c : Nat) : Bool := 0x30 ≤ c && c ≤ 0x39

/-- The scanner between two tokens. -/
def stepTop (c : Nat) : LexSt × List Token :=
  if c = 0x20 ∨ c = 0x09 ∨ c = 0x0A ∨ c = 0x0D then (.top, [])
  else if c = 0x7B then (.top, [.lbrace])
  else if c = 0x7D then (.top, [.rbrace])
  else if c = 0x5B then (.top, [.lbrack])
  else if c = 0x5D then (.top, [.rbrack])
  else if c = 0x3A then (.top, [.colon])
  else if c = 0x2C then (.top, [.comma])
  else if c = 0x22 then (.str [], [])
  else if c = 0x2D then (.num .minus [c], [])
  else if c = 0x30 then (.num .zero [c], [])
  else if 0x31 ≤ c ∧ c ≤ 0x39 then (.num .int [c], [])
  else if c = 0x74 then (.word (bytes "rue") .tru, [])
  else if c = 0x66 then (.word (bytes "alse") .fls, [])
  else if c = 0x6E then (.word (bytes "ull") .null, [])
  else (.bad, [])

/-- The scanner inside a string literal, at a byte that starts a new character. -/
def stepStr (acc : Bytes) (c : Nat) : LexSt × List Token :=
  if c = 0x22 then (.top, [.str acc])
  else if c = 0x5C then (.esc acc none, [])
  else if c < 0x20 then (.bad, [])
  else if c < RuneSelf then (.str (acc ++ [c]), [])
  else
    match leadInfo c with
    | none => (.str (acc ++ replacement), [])
    | some (sz, lo, hi) => (.cont acc [c] (sz - 1) lo hi, [])

/-- The scanner after a backslash that is not followed by `u`. -/
def stepEsc (acc : Bytes) (c : Nat) : LexSt × List Token :=
  if c = 0x22 ∨ c = 0x5C ∨ c = 0x2F then (.str (acc ++ [c]), [])
  else if c = 0x62 then (.str (acc ++ [0x08]), [])
  else if c = 0x66 then (.str (acc ++ [0x0C]), [])
  else if c = 0x6E then (.str (acc ++ [0x0A]), [])
  else if c = 0x72 then (.str (acc ++ [0x0D]), [])
  else if c = 0x74 then (.str (acc ++ [0x09]), [])
  else (.bad, [])

/-- The scanner at the end of an escape of the UTF-16 unit `v` that no high
surrogate precedes. -/
def endUni (acc : Bytes) (v : Nat) : LexSt :=
  if 0xD800 ≤ v ∧ v < 0xDC00 then .strHi acc v
  else if 0xDC00 ≤ v ∧ v < 0xE000 then .str (acc ++ replacement)
  else .str (acc ++ EncodeRune v)

/-- The scanner inside a number literal; `none` when the literal ends before `c`. -/
def stepNum (st : NumSt) (c : Nat) : Option (Option NumSt) :=
  match st with
  | .minus => if c = 0x30 then some (some .zero)
              else if 0x31 ≤ c ∧ c ≤ 0x39 then some (some .int) else some none
  | .zero => if c = 0x2E then some (some .dot)
             else if c = 0x65 ∨ c = 0x45 then some (some .e) else none
  | .int => if isDigit c then some (some .int)
            else if c = 0x2E then some (some .dot)
            else if c = 0x65 ∨ c = 0x45 then some (some .e) else none
  | .dot => if isDigit c then some (some .frac) else some none
  | .frac => if isDigit c then some (some .frac)
             else if c = 0x65 ∨ c = 0x45 then some (some .e) else none
  | .e => if c = 0x2B ∨ c = 0x2D then some (some .esign)
          else if isDigit c then some (some .exp) else some none
  | .esign => if isDigit c then some (some .exp) else some none
  | .exp => if isDigit c then some (some .exp) else none

/-- One step of the scanner: the next state and the tokens that end at `c`. -/
def step (st : LexSt) (c : Nat) : LexSt × List Token :=
  match st with
  | .top => stepTop c
  | .str acc => stepStr acc c
  | .strHi acc h =>
    if c = 0x5C then (.esc acc (some h), []) else stepStr (acc ++ replacement) c
  | .esc acc h =>
    if c = 0x75 then (.uni acc h 0 0, [])
    else
      match h with
      | none => stepEsc acc c
      | some _ => stepEsc (acc ++ replacement) c
  | .uni acc h n v =>
    match hexVal c with
    | none => (.bad, [])
    | some d =>
      if n < 3 then (.uni acc h (n + 1) (v * 16 + d), [])
      else
        match h with
        | none => (endUni acc (v * 16 + d), [])
        | some hi =>
          if 0xDC00 ≤ v * 16 + d ∧ v * 16 + d < 0xE000 then
            (.str (acc ++ EncodeRune (0x10000 + (hi - 0xD800) * 1024 + (v * 16 + d - 0xDC00))), [])
          else (endUni (acc ++ replacement) (v * 16 + d), [])
  | .cont acc pend need lo hi =>
    if lo ≤ c ∧ c ≤ hi then
      if need ≤ 1 then (.str (acc ++ (pend ++ [c])), [])
      else (.cont acc (pend ++ [c]) (need - 1) 0x80 0xBF, [])
    else stepStr (acc ++ (pend.map fun _ => replacement).flatten) c
  | .num ns lit =>
    match stepNum ns c with
    | some (some ns1) => (.num ns1 (lit ++ [c]), [])
    | some none => (.bad, [])
    | none => ((stepTop c).1, .num lit :: (stepTop c).2)
  | .word expect tok =>
    match expect with
    | [] => (.bad, [])
    | [x] => if c = x then (.top, [tok]) else (.bad, [])
    | x :: y :: rest => if c = x then (.word (y :: rest) tok, []) else (.bad, [])
  | .bad => (.bad, [])

/-- The scanner run over `data` from state `st`: the final state and the tokens. -/
def lexRun : LexSt → Bytes → LexSt × List Token
  | st, [] => (st, [])
  | st, c :: cs => ((lexRun (step st c).1 cs).1, (step st c).2 ++ (lexRun (step st c).1 cs).2)

/-- The tokens the end of the input completes; `none` inside a token. -/
def lexEnd : LexSt → Option (List Token)
  | .top => some []
  | .num ns lit => if ns.final then some [.num lit] else none
  | _ => none

/-- The tokens of a JSON text; `none` when `data` is not a sequence of tokens. -/
def lex (data : Bytes) : Option (List Token) :=
  match lexEnd (lexRun .top data).1 with
  | none => none
  | some last => some ((lexRun .top data).2 ++ last)

/-- A JSON value. Object members are kept in the order of the text. -/
inductive JValue where
  | null
  | bool (b : Bool)
  | num (lit : Bytes)
  | str (s : Bytes)
  | arr (elems : List JValue)
  | obj (members : List (Bytes × JValue))

/-- The constant `maxNestingDepth` of the scanner of `encoding/json`. -/
def maxNestingDepth : Nat := 10000

mutual
/-- One value at the head of `toks`, and the tokens after it. Every call consumes
a token or passes on less fuel, so `toks.length + 1` is always enough. -/
def parseValue : Nat → Nat → List Token → Option (JValue × List Token)
  | 0, _, _ => none
  | _ + 1, _, [] => none
  | fuel + 1, depth, tok :: rest =>
    match tok with
    | .null => some (.null, rest)
    | .tru => some (.bool true, rest)
    | .fls => some (.bool false, rest)
    | .num lit => some (.num lit, rest)
    | .str s => some (.str s, rest)
    | .lbrack =>
      if maxNestingDepth ≤ depth then none
      else
        match rest with
        | .rbrack :: rest1 => some (.arr [], rest1)
        | _ =>
          match parseElems fuel (depth + 1) rest with
          | none => none
          | some (vs, rest1) => some (.arr vs, rest1)
    | .lbrace =>
      if maxNestingDepth ≤ depth then none
      else
        match rest with
        | .rbrace :: rest1 => some (.obj [], rest1)
        | _ =>
          match parseMembers fuel (depth + 1) rest with
          | none => none
          | some (ms, rest1) => some (.obj ms, rest1)
    | _ => none
/-- The elements of an array after its opening bracket, up to the closing one. -/
def parseElems : Nat → Nat → List Token → Option (List JValue × List Token)
  | 0, _, _ => none
  | fuel + 1, depth, toks =>
    match parseValue fuel depth toks with
    | some (v, .comma :: rest) =>
      match parseElems fuel depth rest with
      | none => none
      | some (vs, rest1) => some (v :: vs, rest1)
    | some (v, .rbrack :: rest) => some ([v], rest)
    | _ => none
/-- The members of an object after its opening brace, up to the closing one. -/
def parseMembers : Nat → Nat → List Token → Option (List (Bytes × JValue) × List Token)
  | fuel + 1, depth, .str k :: .colon :: toks =>
    match parseValue fuel depth toks with
    | some (v, .comma :: rest) =>
      match parseMembers fuel depth rest with
      | none => none
      | some (ms, rest1) => some ((k, v) :: ms, rest1)
    | some (v, .rbrace :: rest) => some ([(k, v)], rest)
    | _ => none
  | _, _, _ => none
end

/-- The value of a JSON text: `none` when `data` is not valid JSON (the check
`checkValid` of `encoding/json` fails). -/
def jsonParse (data : Bytes) : Option JValue :=
  match lex data with
  | none => none
  | some toks =>
    match parseValue (toks.length + 1) 0 toks with
    | some (v, []) => some v
    | _ => none

/-- The member of an object under `key` (the last one, when a key is repeated). -/
def JValue.get : JValue → Bytes → Option JValue
  | .obj ms, key => (ms.reverse.find? fun m => m.1 = key).map fun m => m.2
  | _, _ => none

/-- The element of an array at index `i`. -/
def JValue.idx : JValue → Nat → Option JValue
  | .arr xs, i => xs.get? i
  | _, _ => none

/-- The content of a string value. -/
def JValue.getStr : JValue → Option Bytes
  | .str s => some s
  | _ => none

/-- The literal of a number value. -/
def JValue.getNum : JValue → Option Bytes
  | .num lit => some lit
  | _ => none

/-- The truth value of a boolean value. -/
def JValue.getBool : JValue → Option Bool
  | .bool b => some b
  | _ => none

/-! ## fmt -/

/-- An operand of a formatting call: a string or byte slice, or an integer. -/
inductive Arg where
  | str (s : Bytes)
  | int (n : Int)
  deriving DecidableEq, Repr

/-- The decimal digits of a natural number. -/
def fmtNat (n : Nat) : Bytes := (Nat.toDigits 10 n).map Char.toNat

/-- An integer as the verb `%d` prints it. -/
def fmtInt : Int → Bytes
  | .ofNat n => fmtNat n
  | .negSucc n => 0x2D :: fmtNat (n + 1)

/-- The flag characters of a formatting directive: `#`, `0`, `+`, `-` and space. -/
def isFlag (c : Nat) : Bool := c = 0x23 || c = 0x30 || c = 0x2B || c = 0x2D || c = 0x20

/-- The loop `doPrintf` of package `fmt`, for the directives this package can
reach: literal text, `%%`, `%s` on a string or byte slice, `%d` on an integer, a
verb with no operand left (`%!v(MISSING)`) and a format that ends inside a
directive (`%!(NOVERB)`). The first argument is `none` in literal text and
`some flags` after a percent sign (`flags`: a flag was read). The result is `none`
for what is not modelled: widths, precisions, operand indexes, multi-byte verbs,
other verbs or flags on an operand, and operands left over. -/
def doPrintf : Option Bool → Bytes → List Arg → Option Bytes
  | none, [], [] => some []
  | none, [], _ :: _ => none
  | none, c :: rest, args =>
    if c = 0x25 then doPrintf (some false) rest args
    else (doPrintf none rest args).map fun out => c :: out
  | some _, [], [] => some (bytes "%!(NOVERB)")
  | some _, [], _ :: _ => none
  | some flags, c :: rest, args =>
    if isFlag c then doPrintf (some true) rest args
    else if (0x31 ≤ c ∧ c ≤ 0x39) ∨ c = 0x2E ∨ c = 0x5B ∨ c = 0x2A ∨ RuneSelf ≤ c then none
    else if c = 0x25 then (doPrintf none rest args).map fun out => 0x25 :: out
    else
      match args with
      | [] => (doPrintf none rest []).map fun out => bytes "%!" ++ c :: (bytes "(MISSING)" ++ out)
      | .str s :: args1 =>
        if flags = false ∧ c = 0x73 then (doPrintf none rest args1).map fun out => s ++ out
        else none
      | .int n :: args1 =>
        if flags = false ∧ c = 0x64 then (doPrintf none rest args1).map fun out => fmtInt n ++ out
        else none

/-- The function `fmt.Sprintf`. -/
def Sprintf (format : Bytes) (args : List Arg) : Option Bytes := doPrintf none format args

/-- A Go `error` value. -/
inductive GoError where
  /-- What `fmt.Errorf(format, args...)` returns. -/
  | errorf (format : Bytes) (args : List Arg)
  /-- What `fmt.Errorf(text + ": %w", err)` returns. -/
  | wrap (text : Bytes) (err : GoError)
  /-- The input of `json.Unmarshal` is not valid JSON. -/
  | jsonInvalid
  /-- A JSON value does not fit the Go value `json.Unmarshal` stores it in. -/
  | jsonMismatch
  /-- An error of another library (`net/http`, `io`), with its message. -/
  | lib (msg : Bytes)
  deriving DecidableEq, Repr

/-- The method `Error()`: the message of an error, where it is modelled. -/
def GoError.Error : GoError → Option Bytes
  | .errorf format args => Sprintf format args
  | .wrap text err => (GoError.Error err).map fun m => text ++ bytes ": " ++ m
  | .lib msg => some msg
  | .jsonInvalid => none
  | .jsonMismatch => none

/-! ## net/url -/

/-- The digit table `"0123456789ABCDEF"` of `net/url`. -/
def upperhex (n : Nat) : Nat := if n < 10 then 0x30 + n else 0x37 + n

/-- The function `shouldEscape(c, encodeQueryComponent)` of `net/url`: every byte
but the unreserved ones (letters, digits, `-`, `_`, `.`, `~`) is escaped. -/
def shouldEscape (c : Nat) : Bool :=
  if (0x61 ≤ c ∧ c ≤ 0x7A) ∨ (0x41 ≤ c ∧ c ≤ 0x5A) ∨ (0x30 ≤ c ∧ c ≤ 0x39) then false
  else if c = 0x2D ∨ c = 0x5F ∨ c = 0x2E ∨ c = 0x7E then false
  else true

/-- The function `url.QueryEscape`: a space becomes `+`, any other byte
`shouldEscape` names becomes `%XX`, the rest is copied. -/
def QueryEscape (s : Bytes) : Bytes :=
  (s.map fun c =>
    if c = 0x20 then [0x2B]
    else if shouldEscape c then [0x25, upperhex (c / 16 % 16), upperhex (c % 16)]
    else [c]).flatten

/-! ## strings -/

/-- The call `strings.ReplaceAll(s, " ", "_")`: every space becomes an underscore. -/
def replaceSpaces (s : Bytes) : Bytes := s.map fun c => if c = 0x20 then 0x5F else c

/-! ## The data model of `search.go` -/

structure Input where
  Channel : Bytes
  Query : Bytes
  deriving DecidableEq, Repr

/-- The element type of `Package.Licenses`. -/
structure License where
  FullName : Bytes
  URL : Option Bytes
  deriving DecidableEq, Repr

structure Package where
  Name : Bytes
  AttrName : Bytes
  AttrSet : Bytes
  Outputs : List Bytes
  DefaultOutput : Option Bytes
  Description : Option Bytes
  Programs : List Bytes
  Homepage : List Bytes
  Version : Bytes
  Platforms : List Bytes
  Position : Bytes
  Licenses : List License
  deriving DecidableEq, Repr

structure Output where
  Input : Input
  Packages : List Package
  deriving DecidableEq, Repr

structure Hit where
  ID : Bytes
  Package : Package
  deriving DecidableEq, Repr

/-- The struct `Error` of `search.go` (its field `Type` is `Typ` here). -/
structure Error where
  Typ : Bytes
  Reason : Bytes
  ResourceType : Bytes
  ResourceID : Bytes
  deriving DecidableEq, Repr

/-- The anonymous struct of the field `Response.Hits`. -/
structure HitList where
  Hits : List Hit
  deriving DecidableEq, Repr

structure Response where
  Error : Option Error
  Status : Option Int
  Hits : HitList
  deriving DecidableEq, Repr

/-- The zero value of `License`. -/
def License.zero : License := ⟨[], none⟩

/-- The zero value of `Package`. -/
def Package.zero : Package := ⟨[], [], [], [], none, none, [], [], [], [], [], []⟩

/-- The zero value of `Hit`. -/
def Hit.zero : Hit := ⟨[], Package.zero⟩

/-- The zero value of `Error`. -/
def Error.zero : Error := ⟨[], [], [], []⟩

/-- The zero value of `Response`. -/
def Response.zero : Response := ⟨none, none, ⟨[]⟩⟩

/-! ## encoding/json: storing a document in a `Response` -/

/-- The folding `foldName` of `encoding/json`, under which object keys are matched
with field names when no field has the key's exact name: ASCII letters in upper
case, and the two other runes whose case folds to ASCII (U+017F to `S`, U+212A to
`K`). -/
def foldName : Bytes → Bytes
  | [] => []
  | 0xC5 :: 0xBF :: rest => 0x53 :: foldName rest
  | 0xE2 :: 0x84 :: 0xAA :: rest => 0x4B :: foldName rest
  | c :: rest => (if 0x61 ≤ c ∧ c ≤ 0x7A then c - 0x20 else c) :: foldName rest

/-- The object key `key` names the struct field tagged `name`. -/
def isField (name : String) (key : Bytes) : Bool :=
  key = bytes name || foldName key = foldName (bytes name)

/-- A JSON value stored in a Go `string`: `null` leaves it as it is. -/
def storeString (old : Bytes) : JValue → Option Bytes
  | .null => some old
  | .str s => some s
  | _ => none

/-- A JSON value stored in a Go `*string`. -/
def storeStringPtr : JValue → Option (Option Bytes)
  | .null => some none
  | .str s => some (some s)
  | _ => none

/-- The call `strconv.ParseInt(lit, 10, 64)` on a JSON number literal. -/
def parseInt (lit : Bytes) : Option Int :=
  let digits := if lit.head? = some 0x2D then lit.drop 1 else lit
  if digits.isEmpty ∨ ¬ digits.all isDigit then none
  else
    let n : Int := (digits.foldl (fun acc c => acc * 10 + (c - 0x30)) 0 : Nat)
    let v : Int := if lit.head? = some 0x2D then - n else n
    if v < -9223372036854775808 ∨ 9223372036854775807 < v then none else some v

/-- A JSON value stored in a Go `*int`. -/
def storeIntPtr : JValue → Option (Option Int)
  | .null => some none
  | .num lit => (parseInt lit).map some
  | _ => none

/-- The elements of a JSON array stored in a slice: element `i` is stored in the
slice's old element `i`, or in a zero value past the old length. (Go takes an
element past the old length from the slice's backing array when the capacity
allows it; the two differ only for a key that is repeated in one object.) -/
def storeElems {α : Type} (zero : α) (store : α → JValue → Option α) :
    List α → List JValue → Option (List α)
  | _, [] => some []
  | old, e :: es =>
    match store (old.headD zero) e with
    | none => none
    | some x =>
      match storeElems zero store old.tail es with
      | none => none
      | some xs => some (x :: xs)

/-- A JSON value stored in a slice: `null` gives the nil slice. -/
def storeSlice {α : Type} (zero : α) (store : α → JValue → Option α) (old : List α) :
    JValue → Option (List α)
  | .null => some []
  | .arr es => storeElems zero store old es
  | _ => none

/-- The members of a JSON object stored in a struct, one after the other. -/
def storeMembers {α : Type} (storeField : α → Bytes → JValue → Option α) :
    α → List (Bytes × JValue) → Option α
  | x, [] => some x
  | x, m :: ms =>
    match storeField x m.1 m.2 with
    | none => none
    | some x1 => storeMembers storeField x1 ms

/-- A JSON value stored in a struct: `null` leaves it as it is. -/
def storeStruct {α : Type} (storeField : α → Bytes → JValue → Option α) (old : α) :
    JValue → Option α
  | .null => some old
  | .obj ms => storeMembers storeField old ms
  | _ => none

/-- A JSON value stored in a pointer to a struct. -/
def storeStructPtr {α : Type} (zero : α) (storeField : α → Bytes → JValue → Option α)
    (old : Option α) : JValue → Option (Option α)
  | .null => some none
  | .obj ms => (storeMembers storeField (old.getD zero) ms).map some
  | _ => none

/-- One member stored in a `License` (the fields `fullName` and `url`). -/
def License.storeField (x : License) (key : Bytes) (v : JValue) : Option License :=
  if isField "fullName" key then (storeString x.FullName v).map fun s => { x with FullName := s }
  else if isField "url" key then (storeStringPtr v).map fun s => { x with URL := s }
  else some x

/-- One member stored in a `Package`, by the `json` tags of its fields; `Licenses`
has no tag and goes by its name. -/
def Package.storeField (x : Package) (key : Bytes) (v : JValue) : Option Package :=
  if isField "package_pname" key then
    (storeString x.Name v).map fun s => { x with Name := s }
  else if isField "package_attr_name" key then
    (storeString x.AttrName v).map fun s => { x with AttrName := s }
  else if isField "package_attr_set" key then
    (storeString x.AttrSet v).map fun s => { x with AttrSet := s }
  else if isField "package_outputs" key then
    (storeSlice [] storeString x.Outputs v).map fun s => { x with Outputs := s }
  else if isField "package_default_output" key then
    (storeStringPtr v).map fun s => { x with DefaultOutput := s }
  else if isField "package_description" key then
    (storeStringPtr v).map fun s => { x with Description := s }
  else if isField "package_programs" key then
    (storeSlice [] storeString x.Programs v).map fun s => { x with Programs := s }
  else if isField "package_homepage" key then
    (storeSlice [] storeString x.Homepage v).map fun s => { x with Homepage := s }
  else if isField "package_pversion" key then
    (storeString x.Version v).map fun s => { x with Version := s }
  else if isField "package_platforms" key then
    (storeSlice [] storeString x.Platforms v).map fun s => { x with Platforms := s }
  else if isField "package_position" key then
    (storeString x.Position v).map fun s => { x with Position := s }
  else if isField "Licenses" key then
    (storeSlice License.zero (storeStruct License.storeField) x.Licenses v).map
      fun s => { x with Licenses := s }
  else some x

/-- One member stored in a `Hit` (the fields `_id` and `_source`). -/
def Hit.storeField (x : Hit) (key : Bytes) (v : JValue) : Option Hit :=
  if isField "_id" key then (storeString x.ID v).map fun s => { x with ID := s }
  else if isField "_source" key then
    (storeStruct Package.storeField x.Package v).map fun s => { x with Package := s }
  else some x

/-- One member stored in an `Error`. -/
def Error.storeField (x : Error) (key : Bytes) (v : JValue) : Option Error :=
  if isField "type" key then (storeString x.Typ v).map fun s => { x with Typ := s }
  else if isField "reason" key then (storeString x.Reason v).map fun s => { x with Reason := s }
  else if isField "resource.type" key then
    (storeString x.ResourceType v).map fun s => { x with ResourceType := s }
  else if isField "resource.id" key then
    (storeString x.ResourceID v).map fun s => { x with ResourceID := s }
  else some x

/-- One member stored in the struct of `Response.Hits` (the field `hits`). -/
def HitList.storeField (x : HitList) (key : Bytes) (v : JValue) : Option HitList :=
  if isField "hits" key then
    (storeSlice Hit.zero (storeStruct Hit.storeField) x.Hits v).map fun s => { x with Hits := s }
  else some x

/-- One member stored in a `Response` (the fields `error`, `status` and `hits`). -/
def Response.storeField (x : Response) (key : Bytes) (v : JValue) : Option Response :=
  if isField "error" key then
    (storeStructPtr Error.zero Error.storeField x.Error v).map fun s => { x with Error := s }
  else if isField "status" key then (storeIntPtr v).map fun s => { x with Status := s }
  else if isField "hits" key then
    (storeStruct HitList.storeField x.Hits v).map fun s => { x with Hits := s }
  else some x

/-- The call `json.Unmarshal(data, &y)` on a zero `Response`: the check that
`data` is valid JSON comes first, then the value is stored field by field; a
value of the wrong JSON type for its field makes the call fail. -/
def Unmarshal (data : Bytes) : Except GoError Response :=
  match jsonParse data with
  | none => .error .jsonInvalid
  | some v =>
    match storeStruct Response.storeField Response.zero v with
    | none => .error .jsonMismatch
    | some y => .ok y

/-- The call `json.Marshal(s)` on a string: it never fails. -/
def Marshal (s : Bytes) : Bytes × Option GoError := (appendString s, none)

/-! ## `search.go`: constants -/

def esUsername : Bytes := bytes "aWVSALXpZv"

def esPassword : Bytes := bytes "X8gPHnzL52wFEekuxsfQ9cSh"

def templateURL : Bytes :=
  bytes "https://nixos-search-7-1733963800.us-east-1.bonsaisearch.net:443/latest-37-nixos-%s/_search"

/-- The constant `templatePayload`; tabs and braces are written as escapes. -/
def templatePayload : String := "
\x7b
\t\"from\": 0,
\t\"size\": 50,
\t\"sort\": [
\t  \x7b
\t\t\"_score\": \"desc\",
\t\t\"package_attr_name\": \"desc\",
\t\t\"package_pversion\": \"desc\"
\t  \x7d
\t],
\t\"aggs\": \x7b
\t  \"package_attr_set\": \x7b
\t\t\"terms\": \x7b
\t\t  \"field\": \"package_attr_set\",
\t\t  \"size\": 20
\t\t\x7d
\t  \x7d,
\t  \"package_license_set\": \x7b
\t\t\"terms\": \x7b
\t\t  \"field\": \"package_license_set\",
\t\t  \"size\": 20
\t\t\x7d
\t  \x7d,
\t  \"package_maintainers_set\": \x7b
\t\t\"terms\": \x7b
\t\t  \"field\": \"package_maintainers_set\",
\t\t  \"size\": 20
\t\t\x7d
\t  \x7d,
\t  \"package_platforms\": \x7b
\t\t\"terms\": \x7b
\t\t  \"field\": \"package_platforms\",
\t\t  \"size\": 20
\t\t\x7d
\t  \x7d,
\t  \"all\": \x7b
\t\t\"global\": \x7b\x7d,
\t\t\"aggregations\": \x7b
\t\t  \"package_attr_set\": \x7b
\t\t\t\"terms\": \x7b
\t\t\t  \"field\": \"package_attr_set\",
\t\t\t  \"size\": 20
\t\t\t\x7d
\t\t  \x7d,
\t\t  \"package_license_set\": \x7b
\t\t\t\"terms\": \x7b
\t\t\t  \"field\": \"package_license_set\",
\t\t\t  \"size\": 20
\t\t\t\x7d
\t\t  \x7d,
\t\t  \"package_maintainers_set\": \x7b
\t\t\t\"terms\": \x7b
\t\t\t  \"field\": \"package_maintainers_set\",
\t\t\t  \"size\": 20
\t\t\t\x7d
\t\t  \x7d,
\t\t  \"package_platforms\": \x7b
\t\t\t\"terms\": \x7b
\t\t\t  \"field\": \"package_platforms\",
\t\t\t  \"size\": 20
\t\t\t\x7d
\t\t  \x7d
\t\t\x7d
\t  \x7d
\t\x7d,
\t\"query\": \x7b
\t  \"bool\": \x7b
\t\t\"filter\": [
\t\t  \x7b
\t\t\t\"term\": \x7b
\t\t\t  \"type\": \x7b
\t\t\t\t\"value\": \"package\",
\t\t\t\t\"_name\": \"filter_packages\"
\t\t\t  \x7d
\t\t\t\x7d
\t\t  \x7d,
\t\t  \x7b
\t\t\t\"bool\": \x7b
\t\t\t  \"must\": [
\t\t\t\t\x7b
\t\t\t\t  \"bool\": \x7b
\t\t\t\t\t\"should\": []
\t\t\t\t  \x7d
\t\t\t\t\x7d,
\t\t\t\t\x7b
\t\t\t\t  \"bool\": \x7b
\t\t\t\t\t\"should\": []
\t\t\t\t  \x7d
\t\t\t\t\x7d,
\t\t\t\t\x7b
\t\t\t\t  \"bool\": \x7b
\t\t\t\t\t\"should\": []
\t\t\t\t  \x7d
\t\t\t\t\x7d,
\t\t\t\t\x7b
\t\t\t\t  \"bool\": \x7b
\t\t\t\t\t\"should\": []
\t\t\t\t  \x7d
\t\t\t\t\x7d
\t\t\t  ]
\t\t\t\x7d
\t\t  \x7d
\t\t],
\t\t\"must\": [
\t\t  \x7b
\t\t\t\"dis_max\": \x7b
\t\t\t  \"tie_breaker\": 0.7,
\t\t\t  \"queries\": [
\t\t\t\t\x7b
\t\t\t\t  \"multi_match\": \x7b
\t\t\t\t\t\"type\": \"cross_fields\",
\t\t\t\t\t\"query\": %s,
\t\t\t\t\t\"analyzer\": \"whitespace\",
\t\t\t\t\t\"auto_generate_synonyms_phrase_query\": false,
\t\t\t\t\t\"operator\": \"and\",
\t\t\t\t\t\"_name\": %s,
\t\t\t\t\t\"fields\": [
\t\t\t\t\t  \"package_attr_name^9\",
\t\t\t\t\t  \"package_attr_name.*^5.3999999999999995\",
\t\t\t\t\t  \"package_programs^9\",
\t\t\t\t\t  \"package_programs.*^5.3999999999999995\",
\t\t\t\t\t  \"package_pname^6\",
\t\t\t\t\t  \"package_pname.*^3.5999999999999996\",
\t\t\t\t\t  \"package_description^1.3\",
\t\t\t\t\t  \"package_description.*^0.78\",
\t\t\t\t\t  \"package_longDescription^1\",
\t\t\t\t\t  \"package_longDescription.*^0.6\",
\t\t\t\t\t  \"flake_name^0.5\",
\t\t\t\t\t  \"flake_name.*^0.3\"
\t\t\t\t\t]
\t\t\t\t  \x7d
\t\t\t\t\x7d,
\t\t\t\t\x7b
\t\t\t\t  \"wildcard\": \x7b
\t\t\t\t\t\"package_attr_name\": \x7b
\t\t\t\t\t  \"value\": %s,
\t\t\t\t\t  \"case_insensitive\": true
\t\t\t\t\t\x7d
\t\t\t\t  \x7d
\t\t\t\t\x7d
\t\t\t  ]
\t\t\t\x7d
\t\t  \x7d
\t\t]
\t  \x7d
\t\x7d
  \x7d
"

/-! ## `search.go`: the query builder -/

/-- The function `formatURL`. A `Sprintf` outside the model gives no bytes. -/
def formatURL (channel : Bytes) : Bytes :=
  (Sprintf templateURL [.str (QueryEscape channel)]).getD []

/-- The function `formatQuery`. -/
def formatQuery (query : Bytes) : Bytes × Option GoError :=
  let matchName := bytes "multi_match_" ++ replaceSpaces query
  match Marshal query with
  | (_, some err) => ([], some (.wrap (bytes "failed to encode query") err))
  | (encQuery, none) =>
    match Marshal matchName with
    | (_, some err) => ([], some (.wrap (bytes "failed to encode match name") err))
    | (encMatchName, none) =>
      let value := (Sprintf (bytes "*%s*") [.str query]).getD []
      match Marshal value with
      | (_, some err) => ([], some (.wrap (bytes "failed to encode value") err))
      | (encValue, none) =>
        ((Sprintf (bytes templatePayload)
          [.str encQuery, .str encMatchName, .str encValue]).getD [], none)

/-! ## `search.go`: `Search` -/

/-- The request `Search` hands to the HTTP client. -/
structure Request where
  Method : Bytes
  URL : Bytes
  Body : Bytes
  BasicAuth : Option (Bytes × Bytes)
  Header : List (Bytes × Bytes)
  deriving DecidableEq, Repr

/-- What the HTTP client hands back: the status code, and what `io.ReadAll` makes
of the body. -/
structure HTTPResponse where
  StatusCode : Int
  Body : Except GoError Bytes

/-- The HTTP executor `Search` runs on: `http.NewRequest` (which may refuse the
method or the URL) and the retrying client's `Do`. `Search` builds that client
itself (`retryablehttp`, `RetryMax = 3`); here it is a parameter, so the statements
about `Search` hold for every response an executor can hand over, among them the
ones the retrying client does (see `retried`). -/
structure Transport where
  NewRequest : Bytes → Bytes → Bytes → Option GoError
  Do : Request → Except GoError HTTPResponse

/-- The status codes `retryablehttp.DefaultRetryPolicy` retries: 429, 0, and 500
and above except 501. When the retries are used up the client returns an error of
its own, so `Search` never sees a response of such a status. -/
def retried (status : Int) : Bool :=
  status = 429 || status = 0 || (500 ≤ status && status != 501)

/-- The loop at the end of `Search`: a slice of `len(hits)` zero packages, then
`Packages[i] = hit.Package` for every index. -/
def copyPackages (hits : List Hit) : List Package :=
  hits.enum.foldl (fun out p => out.set p.1 p.2.Package) (List.replicate hits.length Package.zero)

/-- The request `Search` builds from the locator and the payload. -/
def newRequest (url payload : Bytes) : Request :=
  { Method := bytes "POST", URL := url, Body := payload,
    BasicAuth := some (esUsername, esPassword),
    Header := [(bytes "Content-Type", bytes "application/json"),
               (bytes "Accept", bytes "application/json")] }

/-- The second half of `Search`, from `json.Unmarshal` on: the response of status
`status` and body `x` made into a result or an error. -/
def interpret (input : Input) (status : Int) (x : Bytes) : Option Output × Option GoError :=
  match Unmarshal x with
  | .error err => (none, some err)
  | .ok y =>
    if status ≠ 200 then
      match y.Error with
      | none =>
        (none, some (.errorf (bytes "API failed with status=%d: %s") [.int status, .str x]))
      | some e =>
        if e.Typ = bytes "index_not_found_exception" then
          (none, some (.errorf
            (bytes "API failed with status=%d: index=%s does not exist (invalid --channel=%s)")
            [.int status, .str e.ResourceID, .str input.Channel]))
        else (none, some (.errorf e.Reason []))
    else (some { Input := input, Packages := copyPackages y.Hits.Hits }, none)

/-- The function `Search`, over the HTTP executor `t`. The pair is Go's
`(*Output, error)`. -/
def Search (t : Transport) (input : Input) : Option Output × Option GoError :=
  let url := formatURL input.Channel
  match formatQuery input.Query with
  | (_, some err) => (none, some err)
  | (payload, none) =>
    match t.NewRequest (bytes "POST") url payload with
    | some err => (none, some err)
    | none =>
      match t.Do (newRequest url payload) with
      | .error err => (none, some err)
      | .ok resp =>
        match resp.Body with
        | .error err => (none, some err)
        | .ok x => interpret input resp.StatusCode x

/-! ## Definitions used by the statements -/

/-- The literal text of a format before its first percent sign. -/
def textBefore (format : Bytes) : Bytes := format.takeWhile fun c => c != 0x25

/-- What follows the first directive of a format, when that directive is two bytes long. -/
def afterDirective (format : Bytes) : Bytes := (format.dropWhile fun c => c != 0x25).drop 2

/-- The text of `templatePayload` before its first slot. -/
def payload0 : Bytes := textBefore (bytes templatePayload)

/-- The text of `templatePayload` between its first and its second slot. -/
def payload1 : Bytes := textBefore (afterDirective (bytes templatePayload))

/-- The text of `templatePayload` between its second and its third slot. -/
def payload2 : Bytes := textBefore (afterDirective (afterDirective (bytes templatePayload)))

/-- The text of `templatePayload` after its third slot. -/
def payload3 : Bytes := afterDirective (afterDirective (afterDirective (bytes templatePayload)))

/-- Well-formed UTF-8: a concatenation of byte sequences that `DecodeRuneInString`
accepts (one ASCII byte, or a lead byte and the continuation bytes its row of
`leadInfo` asks for). -/
inductive WellFormed : Bytes → Prop
  | nil : WellFormed []
  | one (b : Nat) (s : Bytes) : b < 0x80 → WellFormed s → WellFormed (b :: s)
  | two (b0 b1 lo hi : Nat) (s : Bytes) : leadInfo b0 = some (2, lo, hi) → lo ≤ b1 → b1 ≤ hi →
      WellFormed s → WellFormed (b0 :: b1 :: s)
  | three (b0 b1 b2 lo hi : Nat) (s : Bytes) : leadInfo b0 = some (3, lo, hi) → lo ≤ b1 →
      b1 ≤ hi → 0x80 ≤ b2 → b2 ≤ 0xBF → WellFormed s → WellFormed (b0 :: b1 :: b2 :: s)
  | four (b0 b1 b2 b3 lo hi : Nat) (s : Bytes) : leadInfo b0 = some (4, lo, hi) → lo ≤ b1 →
      b1 ≤ hi → 0x80 ≤ b2 → b2 ≤ 0xBF → 0x80 ≤ b3 → b3 ≤ 0xBF → WellFormed s →
      WellFormed (b0 :: b1 :: b2 :: b3 :: s)

/-- The tokens of the four pieces of `templatePayload`. -/
def payloadTokens (i : Fin 4) : List Token :=
  match i with
  | 0 => (lexRun .top payload0).2
  | 1 => (lexRun .top payload1).2
  | 2 => (lexRun .top payload2).2
  | 3 => (lexRun .top payload3).2

/-- The tokens of a request body whose three slots hold string literals for `a`,
`b` and `c`. -/
def bodyTokens (a b c : Bytes) : List Token :=
  payloadTokens 0 ++ (.str a :: (payloadTokens 1 ++ (.str b :: (payloadTokens 2 ++
    (.str c :: payloadTokens 3)))))

/-- The clause `query.bool.must[0].dis_max.queries[i]` of a request body. -/
def JValue.clause (v : JValue) (i : Nat) : Option JValue :=
  (v.get (bytes "query")).bind fun v => (v.get (bytes "bool")).bind fun v =>
  (v.get (bytes "must")).bind fun v => (v.idx 0).bind fun v =>
  (v.get (bytes "dis_max")).bind fun v => (v.get (bytes "queries")).bind fun v => v.idx i

/-- The string `query.bool.must[0].dis_max.queries[0].multi_match.<field>`. -/
def JValue.multiMatch (v : JValue) (field : String) : Option Bytes :=
  (v.clause 0).bind fun v => (v.get (bytes "multi_match")).bind fun v =>
  (v.get (bytes field)).bind JValue.getStr

/-- The string `query.bool.must[0].dis_max.queries[1].wildcard.package_attr_name.value`. -/
def JValue.wildcardValue (v : JValue) : Option Bytes :=
  (v.clause 1).bind fun v => (v.get (bytes "wildcard")).bind fun v =>
  (v.get (bytes "package_attr_name")).bind fun v => (v.get (bytes "value")).bind JValue.getStr

/-- Equality of two outcomes of `Unmarshal` can be decided. -/
instance : DecidableEq (Except GoError Response)
  | .ok a, .ok b => if h : a = b then isTrue (by rw [h]) else isFalse fun e => h (Except.ok.inj e)
  | .error a, .error b =>
    if h : a = b then isTrue (by rw [h]) else isFalse fun e => h (Except.error.inj e)
  | .ok _, .error _ => isFalse fun e => Except.noConfusion e
  | .error _, .ok _ => isFalse fun e => Except.noConfusion e

/-- The executor answers the request `Search` builds for `input` with the status
code `status` and the body `x`. -/
def Answers (t : Transport) (input : Input) (status : Int) (x : Bytes) : Prop :=
  t.NewRequest (bytes "POST") (formatURL input.Channel) (formatQuery input.Query).1 = none ∧
  ∃ resp, t.Do (newRequest (formatURL input.Channel) (formatQuery input.Query).1) = .ok resp ∧
    resp.StatusCode = status ∧ resp.Body = .ok x

/-- An executor that accepts every request and answers it with `status` and `x`. -/
def replyWith (status : Int) (x : Bytes) : Transport :=
  { NewRequest := fun _ _ _ => none, Do := fun _ => .ok ⟨status, .ok x⟩ }

/-! ## Sample inputs -/

/-- A search for `fire fox` on the channel `unstable`. -/
def sampleInput : Input := { Channel := bytes "unstable", Query := bytes "fire fox" }

/-- A package of which only the name is set. -/
def namedPackage (name : String) : Package := { Package.zero with Name := bytes name }

/-- A success envelope with two hits. -/
def sampleHits : Bytes :=
  bytes ("\x7b\"hits\":\x7b\"hits\":[\x7b\"_id\":\"1\",\"_source\":\x7b\"package_pname\":\"firefox\"\x7d\x7d," ++
    "\x7b\"_id\":\"2\",\"_source\":\x7b\"package_pname\":\"firefox-esr\"\x7d\x7d]\x7d\x7d")

/-- The envelope `sampleHits` parses to. -/
def sampleHitsResponse : Response :=
  { Error := none, Status := none,
    Hits := ⟨[⟨bytes "1", namedPackage "firefox"⟩, ⟨bytes "2", namedPackage "firefox-esr"⟩]⟩ }

/-- An error envelope of the kind `index_not_found_exception`. -/
def sampleNotFound : Bytes :=
  bytes ("\x7b\"error\":\x7b\"type\":\"index_not_found_exception\",\"reason\":\"no such index\"," ++
    "\"resource.type\":\"index_or_alias\",\"resource.id\":\"latest-37-nixos-bogus\"\x7d,\"status\":404\x7d")

/-- The envelope `sampleNotFound` parses to. -/
def sampleNotFoundResponse : Response :=
  { Error := some ⟨bytes "index_not_found_exception", bytes "no such index",
      bytes "index_or_alias", bytes "latest-37-nixos-bogus"⟩,
    Status := some 404, Hits := ⟨[]⟩ }

/-- An error envelope of another kind, as it comes with the status 400, with the
given reason text. -/
def sampleFailure (reason : String) : Bytes :=
  bytes ("\x7b\"error\":\x7b\"type\":\"parsing_exception\",\"reason\":\"" ++ reason ++
    "\"\x7d,\"status\":400\x7d")

/-- A body without an error object. -/
def sampleNoError : Bytes := bytes "\x7b\"message\":\"Unauthorized\"\x7d"

/-- A step of a path into a JSON value: to a member of an object, or to an element
of an array. -/
inductive Step where
  | key (k : String)
  | idx (i : Nat)

/-- The value a path leads to. -/
def JValue.path : JValue → List Step → Option JValue
  | v, [] => some v
  | v, .key k :: p =>
    match v.get (bytes k) with
    | none => none
    | some w => w.path p
  | v, .idx i :: p =>
    match v.idx i with
    | none => none
    | some w => w.path p

/-- The value is `null`. -/
def JValue.isNull : JValue → Bool
  | .null => true
  | _ => false

/-- The value is an object. -/
def JValue.isObj : JValue → Bool
  | .obj _ => true
  | _ => false

/-- The value is an array. -/
def JValue.isArr : JValue → Bool
  | .arr _ => true
  | _ => false

/-- The locator before the channel. -/
def urlHead : Bytes :=
  bytes "https://nixos-search-7-1733963800.us-east-1.bonsaisearch.net:443/latest-37-nixos-"

/-- The locator after the channel. -/
def urlTail : Bytes := bytes "/_search"

/-- The envelope of `sampleHits` with an error object and a status code added. -/
def sampleHitsWithError : Bytes :=
  bytes ("\x7b\"error\":\x7b\"type\":\"index_not_found_exception\",\"reason\":\"no such index\"," ++
    "\"resource.id\":\"latest-37-nixos-bogus\"\x7d,\"status\":404," ++
    "\"hits\":\x7b\"hits\":[\x7b\"_id\":\"1\",\"_source\":\x7b\"package_pname\":\"firefox\"\x7d\x7d," ++
    "\x7b\"_id\":\"2\",\"_source\":\x7b\"package_pname\":\"firefox-esr\"\x7d\x7d]\x7d\x7d")

/-- The envelope `sampleHitsWithError` parses to. -/
def sampleHitsWithErrorResponse : Response :=
  { Error := some ⟨bytes "index_not_found_exception", bytes "no such index", [],
      bytes "latest-37-nixos-bogus"⟩,
    Status := some 404,
    Hits := ⟨[⟨bytes "1", namedPackage "firefox"⟩, ⟨bytes "2", namedPackage "firefox-esr"⟩]⟩ }

/-- The literal of the number a path leads to. -/
def JValue.numAt (v : JValue) (p : List Step) : Option Bytes := (v.path p).bind JValue.getNum

/-- The content of the string a path leads to. -/
def JValue.strAt (v : JValue) (p : List Step) : Option Bytes := (v.path p).bind JValue.getStr

/-- The truth value a path leads to. -/
def JValue.boolAt (v : JValue) (p : List Step) : Option Bool := (v.path p).bind JValue.getBool

/-! ## Lemmas -/

theorem doPrintf_text (pre rest : Bytes) (args : List Arg) (h : ∀ c ∈ pre, c ≠ 0x25) :
    doPrintf none (pre ++ rest) args = (doPrintf none rest args).map fun out => pre ++ out := by
  induction pre with
  | nil => simp
  | cons c pre ih =>
    have hc : c ≠ 0x25 := h c (List.mem_cons_self _ _)
    have ih1 := ih fun d hd => h d (List.mem_cons_of_mem _ hd)
    have h1 : doPrintf none (c :: (pre ++ rest)) args
        = (doPrintf none (pre ++ rest) args).map fun out => c :: out := by
      simp [doPrintf, hc]
    rw [List.cons_append, h1, ih1, Option.map_map]
    rfl

theorem doPrintf_done (format : Bytes) (h : ∀ c ∈ format, c ≠ 0x25) :
    doPrintf none format [] = some format := by
  have := doPrintf_text format [] [] h
  simpa [doPrintf] using this

theorem doPrintf_str (rest s : Bytes) (args : List Arg) :
    doPrintf none (0x25 :: 0x73 :: rest) (.str s :: args)
      = (doPrintf none rest args).map fun out => s ++ out := by
  simp [doPrintf, isFlag, RuneSelf]

theorem doPrintf_int (rest : Bytes) (n : Int) (args : List Arg) :
    doPrintf none (0x25 :: 0x64 :: rest) (.int n :: args)
      = (doPrintf none rest args).map fun out => fmtInt n ++ out := by
  simp [doPrintf, isFlag, RuneSelf]

theorem textBefore_ne (format : Bytes) : ∀ c ∈ textBefore format, c ≠ 0x25 := by
  intro c hc
  have := List.mem_takeWhile_imp hc
  simpa using this

theorem format_split (format : Bytes) (d : Nat)
    (h : (format.dropWhile fun c => c != 0x25).take 2 = [0x25, d]) :
    format = textBefore format ++ 0x25 :: d :: afterDirective format := by
  have h1 : format = textBefore format ++ (format.dropWhile fun c => c != 0x25) := by
    simp [textBefore]
  have h2 : (format.dropWhile fun c => c != 0x25)
      = 0x25 :: d :: afterDirective format := by
    have := List.take_append_drop 2 (format.dropWhile fun c => c != 0x25)
    rw [h] at this
    simpa [afterDirective] using this.symm
  rw [← h2]; exact h1

theorem Sprintf_str (format s : Bytes) (args : List Arg)
    (h : (format.dropWhile fun c => c != 0x25).take 2 = [0x25, 0x73]) :
    Sprintf format (.str s :: args)
      = (Sprintf (afterDirective format) args).map fun out => textBefore format ++ (s ++ out) := by
  unfold Sprintf
  conv => lhs; rw [format_split format _ h]
  rw [doPrintf_text _ _ _ (textBefore_ne format), doPrintf_str, Option.map_map]
  rfl

theorem Sprintf_int (format : Bytes) (n : Int) (args : List Arg)
    (h : (format.dropWhile fun c => c != 0x25).take 2 = [0x25, 0x64]) :
    Sprintf format (.int n :: args)
      = (Sprintf (afterDirective format) args).map
          fun out => textBefore format ++ (fmtInt n ++ out) := by
  unfold Sprintf
  conv => lhs; rw [format_split format _ h]
  rw [doPrintf_text _ _ _ (textBefore_ne format), doPrintf_int, Option.map_map]
  rfl

theorem Sprintf_done (format : Bytes) (h : format.all (fun c => c != 0x25) = true) :
    Sprintf format [] = some format := by
  apply doPrintf_done
  intro c hc
  have := List.all_eq_true.mp h c hc
  simpa using this

theorem Sprintf_payload (a b c : Bytes) :
    Sprintf (bytes templatePayload) [.str a, .str b, .str c]
      = some (payload0 ++ (a ++ (payload1 ++ (b ++ (payload2 ++ (c ++ payload3)))))) := by
  rw [Sprintf_str _ _ _ (by decide!), Sprintf_str _ _ _ (by decide!),
    Sprintf_str _ _ _ (by decide!), Sprintf_done _ (by decide!)]
  rfl

theorem Sprintf_wildcard (q : Bytes) :
    Sprintf (bytes "*%s*") [.str q] = some (0x2A :: (q ++ [0x2A])) := by
  rw [Sprintf_str _ _ _ (by decide), Sprintf_done _ (by decide)]
  rfl

theorem formatQuery_eq (q : Bytes) :
    formatQuery q = (payload0 ++ (appendString q ++ (payload1 ++
      (appendString (bytes "multi_match_" ++ replaceSpaces q) ++ (payload2 ++
        (appendString (0x2A :: (q ++ [0x2A])) ++ payload3))))), none) := by
  simp only [formatQuery, Marshal, Sprintf_payload, Sprintf_wildcard, Option.getD_some]

theorem formatURL_eq (channel : Bytes) :
    formatURL channel = textBefore templateURL ++ (QueryEscape channel ++ afterDirective templateURL) := by
  unfold formatURL
  rw [Sprintf_str _ _ _ (by decide), Sprintf_done _ (by decide)]
  rfl

theorem leadInfo_some (b sz lo hi : Nat) (h : leadInfo b = some (sz, lo, hi)) :
    0xC2 ≤ b ∧ b ≤ 0xF4 ∧ 0x80 ≤ lo ∧ hi ≤ 0xBF ∧ 2 ≤ sz ∧ sz ≤ 4 ∧
      (sz = 2 → b ≤ 0xDF) ∧ (sz = 3 → 0xE0 ≤ b ∧ b ≤ 0xEF) ∧ (sz = 4 → 0xF0 ≤ b) ∧
      (b = 0xF0 → 0x90 ≤ lo) := by
  unfold leadInfo at h
  split_ifs at h <;> simp at h <;> omega

theorem decode_two (b0 b1 lo hi : Nat) (s : Bytes) (h : leadInfo b0 = some (2, lo, hi))
    (h1 : lo ≤ b1) (h2 : b1 ≤ hi) :
    DecodeRuneInString (b0 :: b1 :: s) = (b0 % 32 * 64 + b1 % 64, 2) := by
  have := leadInfo_some _ _ _ _ h
  have hb : ¬ b0 < RuneSelf := by simp [RuneSelf]; omega
  have hr : ¬ (b1 < lo ∨ hi < b1) := by omega
  simp [DecodeRuneInString, hb, h, hr]

theorem decode_three (b0 b1 b2 lo hi : Nat) (s : Bytes) (h : leadInfo b0 = some (3, lo, hi))
    (h1 : lo ≤ b1) (h2 : b1 ≤ hi) (h3 : 0x80 ≤ b2) (h4 : b2 ≤ 0xBF) :
    DecodeRuneInString (b0 :: b1 :: b2 :: s) = (b0 % 16 * 4096 + b1 % 64 * 64 + b2 % 64, 3) := by
  have := leadInfo_some _ _ _ _ h
  have hb : ¬ b0 < RuneSelf := by simp [RuneSelf]; omega
  have hr : ¬ (b1 < lo ∨ hi < b1) := by omega
  have hr2 : ¬ (b2 < 0x80 ∨ 0xBF < b2) := by omega
  simp [DecodeRuneInString, hb, h, hr, hr2]

theorem decode_four (b0 b1 b2 b3 lo hi : Nat) (s : Bytes) (h : leadInfo b0 = some (4, lo, hi))
    (h1 : lo ≤ b1) (h2 : b1 ≤ hi) (h3 : 0x80 ≤ b2) (h4 : b2 ≤ 0xBF) (h5 : 0x80 ≤ b3)
    (h6 : b3 ≤ 0xBF) :
    DecodeRuneInString (b0 :: b1 :: b2 :: b3 :: s)
      = (b0 % 8 * 262144 + b1 % 64 * 4096 + b2 % 64 * 64 + b3 % 64, 4) := by
  have := leadInfo_some _ _ _ _ h
  have hb : ¬ b0 < RuneSelf := by simp [RuneSelf]; omega
  have hr : ¬ (b1 < lo ∨ hi < b1) := by omega
  have hr2 : ¬ (b2 < 0x80 ∨ 0xBF < b2) := by omega
  have hr3 : ¬ (b3 < 0x80 ∨ 0xBF < b3) := by omega
  simp [DecodeRuneInString, hb, h, hr, hr2, hr3]

/-- The shapes of a successful `DecodeRuneInString`: unless it reports
`(RuneError, 1)`, the input starts with a sequence of one of the four kinds and the
width is the length of that sequence. -/
theorem decode_cases (b : Nat) (rest : Bytes) :
    DecodeRuneInString (b :: rest) = (RuneError, 1) ∨
    (b < 0x80 ∧ (DecodeRuneInString (b :: rest)).2 = 1) ∨
    (∃ lo hi b1 t, rest = b1 :: t ∧ leadInfo b = some (2, lo, hi) ∧ lo ≤ b1 ∧ b1 ≤ hi ∧
      (DecodeRuneInString (b :: rest)).2 = 2) ∨
    (∃ lo hi b1 b2 t, rest = b1 :: b2 :: t ∧ leadInfo b = some (3, lo, hi) ∧ lo ≤ b1 ∧ b1 ≤ hi ∧
      0x80 ≤ b2 ∧ b2 ≤ 0xBF ∧ (DecodeRuneInString (b :: rest)).2 = 3) ∨
    (∃ lo hi b1 b2 b3 t, rest = b1 :: b2 :: b3 :: t ∧ leadInfo b = some (4, lo, hi) ∧ lo ≤ b1 ∧
      b1 ≤ hi ∧ 0x80 ≤ b2 ∧ b2 ≤ 0xBF ∧ 0x80 ≤ b3 ∧ b3 ≤ 0xBF ∧
      (DecodeRuneInString (b :: rest)).2 = 4) := by
  by_cases hb : b < RuneSelf
  · right; left
    exact ⟨by simpa [RuneSelf] using hb, by simp [DecodeRuneInString, hb]⟩
  rcases Option.eq_none_or_eq_some (leadInfo b) with hl | ⟨info, hl⟩
  · left; simp [DecodeRuneInString, hb, hl]
  · obtain ⟨sz, lo, hi⟩ := info
    have hsz := leadInfo_some _ _ _ _ hl
    match rest with
    | [] => left; simp [DecodeRuneInString, hb, hl]
    | b1 :: t1 =>
      by_cases hr : b1 < lo ∨ hi < b1
      · left; simp [DecodeRuneInString, hb, hl, hr]
      by_cases hs2 : sz ≤ 2
      · have : sz = 2 := by omega
        subst this
        right; right; left
        exact ⟨lo, hi, b1, t1, rfl, hl, by omega, by omega,
          by rw [decode_two _ _ _ _ _ hl (by omega) (by omega)]⟩
      match t1 with
      | [] => left; simp [DecodeRuneInString, hb, hl, hr, hs2]
      | b2 :: t2 =>
        by_cases hr2 : b2 < 0x80 ∨ 0xBF < b2
        · left; simp [DecodeRuneInString, hb, hl, hr, hs2, hr2]
        by_cases hs3 : sz ≤ 3
        · have : sz = 3 := by omega
          subst this
          right; right; right; left
          exact ⟨lo, hi, b1, b2, t2, rfl, hl, by omega, by omega, by omega, by omega,
            by rw [decode_three _ _ _ _ _ _ hl (by omega) (by omega) (by omega) (by omega)]⟩
        have : sz = 4 := by omega
        subst this
        match t2 with
        | [] => left; simp [DecodeRuneInString, hb, hl, hr, hr2]
        | b3 :: t3 =>
          by_cases hr3 : b3 < 0x80 ∨ 0xBF < b3
          · left; simp [DecodeRuneInString, hb, hl, hr, hr2, hr3]
          right; right; right; right
          exact ⟨lo, hi, b1, b2, b3, t3, rfl, hl, by omega, by omega, by omega, by omega,
            by omega, by omega,
            by rw [decode_four _ _ _ _ _ _ _ hl (by omega) (by omega) (by omega) (by omega)
              (by omega) (by omega)]⟩

theorem validLoop_wellFormed :
    ∀ (fuel : Nat) (s : Bytes), validLoop fuel s = true → WellFormed s := by
  intro fuel
  induction fuel with
  | zero => intro s h; simp [validLoop] at h; subst h; exact .nil
  | succ fuel ih =>
    intro s h
    match s with
    | [] => exact .nil
    | b :: rest =>
      simp only [validLoop] at h
      split_ifs at h with herr
      have hrest := ih _ h
      rcases decode_cases b rest with hc | ⟨hb, hc⟩ | ⟨lo, hi, b1, t, rfl, hl, h1, h2, hc⟩ |
        ⟨lo, hi, b1, b2, t, rfl, hl, h1, h2, h3, h4, hc⟩ |
        ⟨lo, hi, b1, b2, b3, t, rfl, hl, h1, h2, h3, h4, h5, h6, hc⟩
      · exact absurd (by simp [hc]) herr
      · rw [hc] at hrest
        exact .one b rest hb (by simpa using hrest)
      · rw [hc] at hrest
        exact .two b b1 lo hi t hl h1 h2 (by simpa using hrest)
      · rw [hc] at hrest
        exact .three b b1 b2 lo hi t hl h1 h2 h3 h4 (by simpa using hrest)
      · rw [hc] at hrest
        exact .four b b1 b2 b3 lo hi t hl h1 h2 h3 h4 h5 h6 (by simpa using hrest)

theorem wellFormed_of_valid (s : Bytes) (h : ValidString s = true) : WellFormed s :=
  validLoop_wellFormed _ s h

theorem lexRun_append (st : LexSt) (a b : Bytes) :
    lexRun st (a ++ b)
      = ((lexRun (lexRun st a).1 b).1, (lexRun st a).2 ++ (lexRun (lexRun st a).1 b).2) := by
  induction a generalizing st with
  | nil => simp [lexRun]
  | cons c a ih => simp [lexRun, ih, List.append_assoc]

/-- A run that ends in state `st1` without a token, followed by a run from `st1`. -/
theorem lexRun_append_of (st st1 : LexSt) (a b : Bytes) (h : lexRun st a = (st1, [])) :
    lexRun st (a ++ b) = lexRun st1 b := by
  rw [lexRun_append, h]
  simp

theorem step_safe (acc : Bytes) (b : Nat) (h : htmlSafeSet b = true) :
    step (.str acc) b = (.str (acc ++ [b]), []) := by
  simp only [htmlSafeSet, Bool.and_eq_true, decide_eq_true_eq, bne_iff_ne, ne_eq] at h
  have h1 : ¬ b = 0x22 := by omega
  have h2 : ¬ b = 0x5C := by omega
  have h3 : ¬ b < 0x20 := by omega
  have h4 : b < RuneSelf := by simp [RuneSelf]; omega
  simp [step, stepStr, h1, h2, h3, h4]

theorem lexRun_escape (acc : Bytes) (b : Nat) (hb : b < 0x80) :
    lexRun (.str acc) (escapeByte b) = (.str (acc ++ [b]), []) := by
  interval_cases b <;> rfl

theorem lexRun_raw2 (acc : Bytes) (b0 b1 lo hi : Nat) (h : leadInfo b0 = some (2, lo, hi))
    (h1 : lo ≤ b1) (h2 : b1 ≤ hi) :
    lexRun (.str acc) [b0, b1] = (.str (acc ++ [b0, b1]), []) := by
  have := leadInfo_some _ _ _ _ h
  have e1 : ¬ b0 = 0x22 := by omega
  have e2 : ¬ b0 = 0x5C := by omega
  have e3 : ¬ b0 < 0x20 := by omega
  have e4 : ¬ b0 < RuneSelf := by simp [RuneSelf]; omega
  simp [lexRun, step, stepStr, e1, e2, e3, e4, h, h1, h2]

theorem lexRun_raw3 (acc : Bytes) (b0 b1 b2 lo hi : Nat) (h : leadInfo b0 = some (3, lo, hi))
    (h1 : lo ≤ b1) (h2 : b1 ≤ hi) (h3 : 0x80 ≤ b2) (h4 : b2 ≤ 0xBF) :
    lexRun (.str acc) [b0, b1, b2] = (.str (acc ++ [b0, b1, b2]), []) := by
  have := leadInfo_some _ _ _ _ h
  have e1 : ¬ b0 = 0x22 := by omega
  have e2 : ¬ b0 = 0x5C := by omega
  have e3 : ¬ b0 < 0x20 := by omega
  have e4 : ¬ b0 < RuneSelf := by simp [RuneSelf]; omega
  simp [lexRun, step, stepStr, e1, e2, e3, e4, h, h1, h2, h3, h4]

theorem lexRun_raw4 (acc : Bytes) (b0 b1 b2 b3 lo hi : Nat) (h : leadInfo b0 = some (4, lo, hi))
    (h1 : lo ≤ b1) (h2 : b1 ≤ hi) (h3 : 0x80 ≤ b2) (h4 : b2 ≤ 0xBF) (h5 : 0x80 ≤ b3)
    (h6 : b3 ≤ 0xBF) :
    lexRun (.str acc) [b0, b1, b2, b3] = (.str (acc ++ [b0, b1, b2, b3]), []) := by
  have := leadInfo_some _ _ _ _ h
  have e1 : ¬ b0 = 0x22 := by omega
  have e2 : ¬ b0 = 0x5C := by omega
  have e3 : ¬ b0 < 0x20 := by omega
  have e4 : ¬ b0 < RuneSelf := by simp [RuneSelf]; omega
  simp [lexRun, step, stepStr, e1, e2, e3, e4, h, h1, h2, h3, h4, h5, h6]

/-- The escapes of U+2028 and U+2029 read back as the three bytes of the rune. -/
theorem lexRun_sep (acc : Bytes) (d : Nat) (hd : d = 8 ∨ d = 9) :
    lexRun (.str acc) (bytes "\\u202" ++ [hexLower d])
      = (.str (acc ++ [0xE2, 0x80, 0xA0 + d]), []) := by
  rcases hd with rfl | rfl <;> rfl

/-- The escape of an ill-formed byte reads back as U+FFFD. -/
theorem lexRun_ufffd (acc : Bytes) :
    lexRun (.str acc) (bytes "\\ufffd") = (.str (acc ++ replacement), []) := rfl

/-- The content of the literal `appendString` writes for `s` reads back as `s`
coerced to valid UTF-8. -/
theorem lexRun_content (fuel : Nat) :
    ∀ (s acc : Bytes),
      lexRun (.str acc) (appendStringLoop fuel s) = (.str (acc ++ toValidLoop fuel s), []) := by
  induction fuel with
  | zero => intro s acc; simp [appendStringLoop, toValidLoop, lexRun]
  | succ f ih =>
    intro s acc
    match s with
    | [] => simp [appendStringLoop, toValidLoop, lexRun]
    | b :: rest =>
      by_cases hb1 : b < RuneSelf
      · have hb : b < 0x80 := by simpa [RuneSelf] using hb1
        simp only [appendStringLoop, toValidLoop, hb1, if_true]
        split_ifs with hs
        · rw [lexRun, step_safe _ _ hs, ih]; simp
        · rw [lexRun_append_of _ _ _ _ (lexRun_escape acc b hb), ih]; simp
      · simp only [appendStringLoop, toValidLoop, hb1, if_false]
        rcases decode_cases b rest with hc | ⟨hb, _⟩ | ⟨lo, hi, b1, t, rfl, hl, h1, h2, _⟩ |
          ⟨lo, hi, b1, b2, t, rfl, hl, h1, h2, h3, h4, _⟩ |
          ⟨lo, hi, b1, b2, b3, t, rfl, hl, h1, h2, h3, h4, h5, h6, _⟩
        · simp only [hc, and_self, if_true]
          rw [lexRun_append_of _ _ _ _ (lexRun_ufffd acc), ih]; simp
        · exact absurd (by simpa [RuneSelf] using hb) hb1
        · have hi1 := leadInfo_some _ _ _ _ hl
          have hne : ¬ (b % 32 * 64 + b1 % 64 = 0x2028 ∨ b % 32 * 64 + b1 % 64 = 0x2029) := by
            omega
          simp only [decode_two _ _ _ _ _ hl h1 h2, hne,
            show ¬ (b % 32 * 64 + b1 % 64 = RuneError ∧ 2 = 1) by omega, if_false]
          show lexRun (.str acc) ([b, b1] ++ appendStringLoop f t) = _
          rw [lexRun_append_of _ _ _ _ (lexRun_raw2 acc b b1 lo hi hl h1 h2), ih]; simp
        · have hi1 := leadInfo_some _ _ _ _ hl
          simp only [decode_three _ _ _ _ _ _ hl h1 h2 h3 h4,
            show ¬ (b % 16 * 4096 + b1 % 64 * 64 + b2 % 64 = RuneError ∧ 3 = 1) by omega,
            if_false]
          split_ifs with hsep
          · have hd : (b % 16 * 4096 + b1 % 64 * 64 + b2 % 64) % 16 = 8 ∨
                (b % 16 * 4096 + b1 % 64 * 64 + b2 % 64) % 16 = 9 := by omega
            have e0 : b = 0xE2 := by omega
            have e1 : b1 = 0x80 := by omega
            have e2 : b2 = 0xA0 + (b % 16 * 4096 + b1 % 64 * 64 + b2 % 64) % 16 := by omega
            show lexRun (.str acc) ((bytes "\\u202" ++ [hexLower _]) ++ appendStringLoop f t) = _
            rw [lexRun_append_of _ _ _ _ (lexRun_sep acc _ hd), ih, ← e2, ← e1, ← e0]; simp
          · show lexRun (.str acc) ([b, b1, b2] ++ appendStringLoop f t) = _
            rw [lexRun_append_of _ _ _ _ (lexRun_raw3 acc b b1 b2 lo hi hl h1 h2 h3 h4), ih]
            simp
        · have hi1 := leadInfo_some _ _ _ _ hl
          have hne : ¬ (b % 8 * 262144 + b1 % 64 * 4096 + b2 % 64 * 64 + b3 % 64 = 0x2028 ∨
              b % 8 * 262144 + b1 % 64 * 4096 + b2 % 64 * 64 + b3 % 64 = 0x2029) := by omega
          simp only [decode_four _ _ _ _ _ _ _ hl h1 h2 h3 h4 h5 h6, hne,
            show ¬ (b % 8 * 262144 + b1 % 64 * 4096 + b2 % 64 * 64 + b3 % 64 = RuneError
              ∧ 4 = 1) by omega, if_false]
          show lexRun (.str acc) ([b, b1, b2, b3] ++ appendStringLoop f t) = _
          rw [lexRun_append_of _ _ _ _ (lexRun_raw4 acc b b1 b2 b3 lo hi hl h1 h2 h3 h4 h5 h6),
            ih]; simp

/-- The literal `appendString` writes for `s` is one string token, which holds `s`
coerced to valid UTF-8. -/
theorem lexRun_appendString (s : Bytes) :
    lexRun .top (appendString s) = (.top, [.str (toValidUTF8 s)]) := by
  unfold appendString
  rw [lexRun]
  have h0 : step .top 0x22 = (.str [], []) := rfl
  rw [h0]
  simp only [List.nil_append]
  rw [lexRun_append_of _ _ _ _ (lexRun_content _ s [])]
  rfl

theorem toValidLoop_of_wellFormed (s : Bytes) (h : WellFormed s) :
    ∀ fuel, s.length ≤ fuel → toValidLoop fuel s = s := by
  induction h with
  | nil => intro fuel _; cases fuel <;> simp [toValidLoop]
  | one b s hb _ ih =>
    intro fuel hf
    obtain ⟨f, rfl⟩ : ∃ f, fuel = f + 1 := ⟨fuel - 1, by simp at hf; omega⟩
    have hb1 : b < RuneSelf := by simpa [RuneSelf] using hb
    simp only [toValidLoop, hb1, if_true]
    rw [ih f (by simpa using hf)]
  | two b0 b1 lo hi s hl h1 h2 _ ih =>
    intro fuel hf
    obtain ⟨f, rfl⟩ : ∃ f, fuel = f + 1 := ⟨fuel - 1, by simp at hf; omega⟩
    have hi1 := leadInfo_some _ _ _ _ hl
    have hb : ¬ b0 < RuneSelf := by simp [RuneSelf]; omega
    simp only [toValidLoop, hb, if_false, decode_two _ _ _ _ _ hl h1 h2]
    simpa using ih f (by simp at hf; omega)
  | three b0 b1 b2 lo hi s hl h1 h2 h3 h4 _ ih =>
    intro fuel hf
    obtain ⟨f, rfl⟩ : ∃ f, fuel = f + 1 := ⟨fuel - 1, by simp at hf; omega⟩
    have hi1 := leadInfo_some _ _ _ _ hl
    have hb : ¬ b0 < RuneSelf := by simp [RuneSelf]; omega
    simp only [toValidLoop, hb, if_false, decode_three _ _ _ _ _ _ hl h1 h2 h3 h4]
    simpa using ih f (by simp at hf; omega)
  | four b0 b1 b2 b3 lo hi s hl h1 h2 h3 h4 h5 h6 _ ih =>
    intro fuel hf
    obtain ⟨f, rfl⟩ : ∃ f, fuel = f + 1 := ⟨fuel - 1, by simp at hf; omega⟩
    have hi1 := leadInfo_some _ _ _ _ hl
    have hb : ¬ b0 < RuneSelf := by simp [RuneSelf]; omega
    simp only [toValidLoop, hb, if_false, decode_four _ _ _ _ _ _ _ hl h1 h2 h3 h4 h5 h6]
    simpa using ih f (by simp at hf; omega)

/-- Valid UTF-8 is left as it is by the coercion. -/
theorem toValidUTF8_of_wellFormed (s : Bytes) (h : WellFormed s) : toValidUTF8 s = s :=
  toValidLoop_of_wellFormed s h _ (le_refl _)

theorem wellFormed_ascii_append (a s : Bytes) (ha : ∀ c ∈ a, c < 0x80) (h : WellFormed s) :
    WellFormed (a ++ s) := by
  induction a with
  | nil => simpa using h
  | cons c a ih =>
    exact .one c (a ++ s) (ha c (List.mem_cons_self _ _))
      (ih fun d hd => ha d (List.mem_cons_of_mem _ hd))

theorem wellFormed_append (s u : Bytes) (h : WellFormed s) (hu : WellFormed u) :
    WellFormed (s ++ u) := by
  induction h with
  | nil => simpa using hu
  | one b s hb _ ih => exact .one b _ hb ih
  | two b0 b1 lo hi s hl h1 h2 _ ih => exact .two b0 b1 lo hi _ hl h1 h2 ih
  | three b0 b1 b2 lo hi s hl h1 h2 h3 h4 _ ih => exact .three b0 b1 b2 lo hi _ hl h1 h2 h3 h4 ih
  | four b0 b1 b2 b3 lo hi s hl h1 h2 h3 h4 h5 h6 _ ih =>
    exact .four b0 b1 b2 b3 lo hi _ hl h1 h2 h3 h4 h5 h6 ih

theorem wellFormed_replaceSpaces (s : Bytes) (h : WellFormed s) :
    WellFormed (replaceSpaces s) := by
  induction h with
  | nil => exact .nil
  | one b s hb _ ih =>
    simp only [replaceSpaces, List.map_cons]
    split_ifs
    · exact .one _ _ (by omega) ih
    · exact .one _ _ hb ih
  | two b0 b1 lo hi s hl h1 h2 _ ih =>
    have := leadInfo_some _ _ _ _ hl
    simp only [replaceSpaces, List.map_cons]
    rw [if_neg (by omega), if_neg (by omega)]
    exact .two b0 b1 lo hi _ hl h1 h2 ih
  | three b0 b1 b2 lo hi s hl h1 h2 h3 h4 _ ih =>
    have := leadInfo_some _ _ _ _ hl
    simp only [replaceSpaces, List.map_cons]
    rw [if_neg (by omega), if_neg (by omega), if_neg (by omega)]
    exact .three b0 b1 b2 lo hi _ hl h1 h2 h3 h4 ih
  | four b0 b1 b2 b3 lo hi s hl h1 h2 h3 h4 h5 h6 _ ih =>
    have := leadInfo_some _ _ _ _ hl
    simp only [replaceSpaces, List.map_cons]
    rw [if_neg (by omega), if_neg (by omega), if_neg (by omega), if_neg (by omega)]
    exact .four b0 b1 b2 b3 lo hi _ hl h1 h2 h3 h4 h5 h6 ih

theorem wellFormed_matchName (q : Bytes) (h : WellFormed q) :
    WellFormed (bytes "multi_match_" ++ replaceSpaces q) :=
  wellFormed_ascii_append _ _ (by decide) (wellFormed_replaceSpaces q h)

theorem wellFormed_wildcard (q : Bytes) (h : WellFormed q) :
    WellFormed (0x2A :: (q ++ [0x2A])) :=
  .one _ _ (by omega) (wellFormed_append q _ h (.one _ _ (by omega) .nil))

theorem lexRun_payload (i : Fin 4) :
    lexRun .top (match i with
      | 0 => payload0 | 1 => payload1 | 2 => payload2 | 3 => payload3)
      = (.top, payloadTokens i) := by
  have h : ∀ i : Fin 4, (lexRun .top (match i with
      | 0 => payload0 | 1 => payload1 | 2 => payload2 | 3 => payload3)).1 = .top := by decide!
  have h2 : ∀ i : Fin 4, (lexRun .top (match i with
      | 0 => payload0 | 1 => payload1 | 2 => payload2 | 3 => payload3)).2 = payloadTokens i := by
    intro i; fin_cases i <;> rfl
  exact Prod.ext (h i) (h2 i)

/-- The tokens of a request body whose slots hold the literals `appendString` writes
for three strings. -/
theorem lex_body (a b c : Bytes) :
    lex (payload0 ++ (appendString a ++ (payload1 ++ (appendString b ++ (payload2 ++
      (appendString c ++ payload3))))))
      = some (bodyTokens (toValidUTF8 a) (toValidUTF8 b) (toValidUTF8 c)) := by
  have e : lexRun .top (payload0 ++ (appendString a ++ (payload1 ++ (appendString b ++
      (payload2 ++ (appendString c ++ payload3))))))
      = (.top, bodyTokens (toValidUTF8 a) (toValidUTF8 b) (toValidUTF8 c)) := by
    simp only [lexRun_append, lexRun_payload 0, lexRun_payload 1, lexRun_payload 2,
      lexRun_payload 3, lexRun_appendString, bodyTokens, List.singleton_append]
  simp [lex, e, lexEnd]

set_option maxRecDepth 100000 in
set_option maxHeartbeats 4000000 in
/-- The value of a request body whose slots hold the strings `a`, `b` and `c`: it
parses, and the three strings are read back from the three fields. -/
theorem parse_body (a b c : Bytes) :
    ∃ v, parseValue ((bodyTokens a b c).length + 1) 0 (bodyTokens a b c) = some (v, []) ∧
      v.multiMatch "query" = some a ∧ v.multiMatch "_name" = some b ∧
      v.wildcardValue = some c :=
  ⟨_, rfl, rfl, rfl, rfl⟩

/-- The body `formatQuery` builds is valid JSON, and its three slots read back as
the query, the match name and the wildcard value, each coerced to valid UTF-8. -/
theorem formatQuery_parse (q : Bytes) :
    ∃ v, jsonParse (formatQuery q).1 = some v ∧
      v.multiMatch "query" = some (toValidUTF8 q) ∧
      v.multiMatch "_name" = some (toValidUTF8 (bytes "multi_match_" ++ replaceSpaces q)) ∧
      v.wildcardValue = some (toValidUTF8 (0x2A :: (q ++ [0x2A]))) := by
  obtain ⟨v, hv, h1, h2, h3⟩ :=
    parse_body (toValidUTF8 q) (toValidUTF8 (bytes "multi_match_" ++ replaceSpaces q))
      (toValidUTF8 (0x2A :: (q ++ [0x2A])))
  refine ⟨v, ?_, h1, h2, h3⟩
  rw [formatQuery_eq]
  simp only [jsonParse, lex_body, hv]

theorem formatQuery_no_error (q : Bytes) : (formatQuery q).2 = none := by
  rw [formatQuery_eq]

theorem Search_eq_interpret (t : Transport) (input : Input) (status : Int) (x : Bytes)
    (h : Answers t input status x) : Search t input = interpret input status x := by
  obtain ⟨h1, resp, h2, h3, h4⟩ := h
  have hq := formatQuery_no_error input.Query
  unfold Search
  generalize formatQuery input.Query = fq at *
  obtain ⟨payload, err⟩ := fq
  simp only at hq h1 h2
  subst hq
  simp only [h1, h2, h4, h3]

theorem answers_replyWith (input : Input) (status : Int) (x : Bytes) :
    Answers (replyWith status x) input status x :=
  ⟨rfl, _, rfl, rfl, rfl⟩

theorem copyPackages_aux (hits : List Hit) :
    ∀ (n : Nat) (done : List Package), done.length = n →
      (hits.enumFrom n).foldl (fun out p => out.set p.1 p.2.Package)
        (done ++ List.replicate hits.length Package.zero)
        = done ++ hits.map fun h => h.Package := by
  induction hits with
  | nil => intro n done _; simp
  | cons hit hits ih =>
    intro n done hn
    have h1 : (done ++ List.replicate (hit :: hits).length Package.zero).set n hit.Package
        = (done ++ [hit.Package]) ++ List.replicate hits.length Package.zero := by
      subst hn
      simp [List.replicate_succ, List.set_append_right]
    simp only [List.enumFrom_cons, List.foldl_cons, h1]
    rw [ih (n + 1) (done ++ [hit.Package]) (by simp [hn])]
    simp

/-- The copy loop of `Search` yields the packages of the hits, in order. -/
theorem copyPackages_eq (hits : List Hit) : copyPackages hits = hits.map fun h => h.Package := by
  have := copyPackages_aux hits 0 [] rfl
  simpa [copyPackages, List.enum] using this

theorem Sprintf_notFound (s : Int) (r c : Bytes) :
    Sprintf (bytes "API failed with status=%d: index=%s does not exist (invalid --channel=%s)")
        [.int s, .str r, .str c]
      = some (bytes "API failed with status=" ++ (fmtInt s ++ (bytes ": index=" ++ (r ++
          (bytes " does not exist (invalid --channel=" ++ (c ++ bytes ")")))))) := by
  rw [Sprintf_int _ _ _ (by decide), Sprintf_str _ _ _ (by decide),
    Sprintf_str _ _ _ (by decide), Sprintf_done _ (by decide)]
  rfl

theorem Sprintf_unexpected (s : Int) (x : Bytes) :
    Sprintf (bytes "API failed with status=%d: %s") [.int s, .str x]
      = some (bytes "API failed with status=" ++ (fmtInt s ++ (bytes ": " ++ x))) := by
  rw [Sprintf_int _ _ _ (by decide), Sprintf_str _ _ _ (by decide), Sprintf_done _ (by decide)]
  simp [textBefore, afterDirective, bytes]


theorem validLoop_of_wellFormed (s : Bytes) (h : WellFormed s) :
    ∀ fuel, s.length ≤ fuel → validLoop fuel s = true := by
  induction h with
  | nil => intro fuel _; cases fuel <;> simp [validLoop]
  | one b s hb _ ih =>
    intro fuel hf
    obtain ⟨f, rfl⟩ : ∃ f, fuel = f + 1 := ⟨fuel - 1, by simp at hf; omega⟩
    have hb1 : b < RuneSelf := by simpa [RuneSelf] using hb
    have hne : ¬ b = RuneError := by simp [RuneError]; omega
    simp only [validLoop, DecodeRuneInString, hb1, if_true, hne, false_and, if_false]
    exact ih f (by simpa using hf)
  | two b0 b1 lo hi s hl h1 h2 _ ih =>
    intro fuel hf
    obtain ⟨f, rfl⟩ : ∃ f, fuel = f + 1 := ⟨fuel - 1, by simp at hf; omega⟩
    simp only [validLoop, decode_two _ _ _ _ _ hl h1 h2]
    simpa using ih f (by simp at hf; omega)
  | three b0 b1 b2 lo hi s hl h1 h2 h3 h4 _ ih =>
    intro fuel hf
    obtain ⟨f, rfl⟩ : ∃ f, fuel = f + 1 := ⟨fuel - 1, by simp at hf; omega⟩
    simp only [validLoop, decode_three _ _ _ _ _ _ hl h1 h2 h3 h4]
    simpa using ih f (by simp at hf; omega)
  | four b0 b1 b2 b3 lo hi s hl h1 h2 h3 h4 h5 h6 _ ih =>
    intro fuel hf
    obtain ⟨f, rfl⟩ : ∃ f, fuel = f + 1 := ⟨fuel - 1, by simp at hf; omega⟩
    simp only [validLoop, decode_four _ _ _ _ _ _ _ hl h1 h2 h3 h4 h5 h6]
    simpa using ih f (by simp at hf; omega)

/-- The strings `ValidString` accepts are the well-formed ones; in particular the
fuel `s.length` is enough. -/
theorem validString_iff (s : Bytes) : ValidString s = true ↔ WellFormed s :=
  ⟨wellFormed_of_valid s, fun h => validLoop_of_wellFormed s h _ (le_refl _)⟩

theorem appendStringLoop_fuel_aux (n : Nat) :
    ∀ (s : Bytes) (f1 f2 : Nat), s.length ≤ n → s.length ≤ f1 → s.length ≤ f2 →
      appendStringLoop f1 s = appendStringLoop f2 s := by
  induction n with
  | zero =>
    intro s f1 f2 hn _ _
    have : s = [] := List.eq_nil_of_length_eq_zero (by omega)
    subst this
    cases f1 <;> cases f2 <;> simp [appendStringLoop]
  | succ n ih =>
    intro s f1 f2 hn h1 h2
    match s with
    | [] => cases f1 <;> cases f2 <;> simp [appendStringLoop]
    | b :: rest =>
      obtain ⟨g1, rfl⟩ : ∃ g, f1 = g + 1 := ⟨f1 - 1, by simp at h1; omega⟩
      obtain ⟨g2, rfl⟩ : ∃ g, f2 = g + 1 := ⟨f2 - 1, by simp at h2; omega⟩
      simp only [List.length_cons, Nat.add_le_add_iff_right] at hn h1 h2
      have e1 := ih rest g1 g2 hn h1 h2
      have e2 : ∀ k, appendStringLoop g1 (rest.drop k) = appendStringLoop g2 (rest.drop k) :=
        fun k => ih _ g1 g2 (by simp; omega) (by simp; omega) (by simp; omega)
      simp only [appendStringLoop, e1, e2]

/-- The fuel `appendString` passes on is enough: more fuel gives the same literal. -/
theorem appendStringLoop_fuel (s : Bytes) (fuel : Nat) (h : s.length ≤ fuel) :
    appendStringLoop fuel s = appendStringLoop s.length s :=
  appendStringLoop_fuel_aux s.length s fuel s.length (le_refl _) h (le_refl _)

theorem fuel_pred (a b c m : Nat) (h : a + 1 - c ≤ m) (hlt : c < a + 1) (hb : c ≤ b) (hba : b ≤ a) :
    ∃ m1, m = m1 + 1 ∧ a - c ≤ m1 ∧ b - c ≤ m1 := ⟨m - 1, by omega, by omega, by omega⟩

theorem parse_fuel (n : Nat) :
    (∀ d toks v rest, parseValue n d toks = some (v, rest) →
      rest.length < toks.length ∧
        ∀ m, toks.length - rest.length ≤ m → parseValue m d toks = some (v, rest)) ∧
    (∀ d toks vs rest, parseElems n d toks = some (vs, rest) →
      rest.length < toks.length ∧
        ∀ m, toks.length - rest.length ≤ m → parseElems m d toks = some (vs, rest)) ∧
    (∀ d toks ms rest, parseMembers n d toks = some (ms, rest) →
      rest.length < toks.length ∧
        ∀ m, toks.length - rest.length ≤ m → parseMembers m d toks = some (ms, rest)) := by
  induction n with
  | zero =>
    refine ⟨?_, ?_, ?_⟩ <;> intro d toks v rest h <;> simp [parseValue, parseElems, parseMembers] at h
  | succ n ih =>
    obtain ⟨ihV, ihE, ihM⟩ := ih
    refine ⟨?_, ?_, ?_⟩
    · intro d toks v rest h
      match toks with
      | [] => simp [parseValue] at h
      | tok :: rest0 =>
        cases tok with
        | null | tru | fls | num _ | str _ =>
          simp only [parseValue, Option.some.injEq, Prod.mk.injEq] at h
          obtain ⟨rfl, rfl⟩ := h
          refine ⟨by simp, fun m hm => ?_⟩
          obtain ⟨m1, rfl, _⟩ := fuel_pred _ _ _ m hm (by simp) (le_refl _) (le_refl _)
          simp [parseValue]
        | rbrace | rbrack | colon | comma => simp [parseValue] at h
        | lbrack =>
          simp only [parseValue] at h
          split_ifs at h with hd
          split at h
          · simp only [Option.some.injEq, Prod.mk.injEq] at h
            obtain ⟨rfl, rfl⟩ := h
            refine ⟨by simp; omega, fun m hm => ?_⟩
            obtain ⟨m1, rfl, _⟩ := fuel_pred _ _ _ m hm (by simp; omega) (le_refl _)
              (by simp)
            simp [parseValue, hd]
          · rename_i hne
            split at h
            · simp at h
            · rename_i vs rest1 hE
              simp only [Option.some.injEq, Prod.mk.injEq] at h
              obtain ⟨rfl, rfl⟩ := h
              obtain ⟨hlt, hfuel⟩ := ihE _ _ _ _ hE
              refine ⟨by simp; omega, fun m hm1 => ?_⟩
              obtain ⟨m1, rfl, hm2, _⟩ := fuel_pred _ _ _ m hm1 (by omega) (le_refl _)
                (by omega)
              simp only [parseValue, hd, if_false]
              rw [hfuel m1 hm2]
        | lbrace =>
          simp only [parseValue] at h
          split_ifs at h with hd
          split at h
          · simp only [Option.some.injEq, Prod.mk.injEq] at h
            obtain ⟨rfl, rfl⟩ := h
            refine ⟨by simp; omega, fun m hm => ?_⟩
            obtain ⟨m1, rfl, _⟩ := fuel_pred _ _ _ m hm (by simp; omega) (le_refl _)
              (by simp)
            simp [parseValue, hd]
          · rename_i hne
            split at h
            · simp at h
            · rename_i vs rest1 hE
              simp only [Option.some.injEq, Prod.mk.injEq] at h
              obtain ⟨rfl, rfl⟩ := h
              obtain ⟨hlt, hfuel⟩ := ihM _ _ _ _ hE
              refine ⟨by simp; omega, fun m hm1 => ?_⟩
              obtain ⟨m1, rfl, hm2, _⟩ := fuel_pred _ _ _ m hm1 (by omega) (le_refl _)
                (by omega)
              simp only [parseValue, hd, if_false]
              rw [hfuel m1 hm2]
    · intro d toks vs rest h
      simp only [parseElems] at h
      split at h
      · rename_i v rest0 hV
        obtain ⟨hlt, hfuel⟩ := ihV _ _ _ _ hV
        split at h
        · simp at h
        · rename_i vs1 rest1 hE
          simp only [Option.some.injEq, Prod.mk.injEq] at h
          obtain ⟨rfl, rfl⟩ := h
          obtain ⟨hlt1, hfuel1⟩ := ihE _ _ _ _ hE
          simp only [List.length_cons] at hlt hfuel
          refine ⟨by omega, fun m hm1 => ?_⟩
          obtain ⟨m1, rfl, hm2, hm3⟩ : ∃ m1, m = m1 + 1 ∧ toks.length - (rest0.length + 1) ≤ m1 ∧
              rest0.length - rest1.length ≤ m1 := ⟨m - 1, by omega, by omega, by omega⟩
          simp only [parseElems, hfuel m1 hm2, hfuel1 m1 hm3]
      · rename_i v rest0 hV
        simp only [Option.some.injEq, Prod.mk.injEq] at h
        obtain ⟨rfl, rfl⟩ := h
        obtain ⟨hlt, hfuel⟩ := ihV _ _ _ _ hV
        simp only [List.length_cons] at hlt hfuel
        refine ⟨by omega, fun m hm1 => ?_⟩
        obtain ⟨m1, rfl, hm2⟩ : ∃ m1, m = m1 + 1 ∧ toks.length - (rest0.length + 1) ≤ m1 :=
          ⟨m - 1, by omega, by omega⟩
        simp only [parseElems, hfuel m1 hm2]
      · simp at h
    · intro d toks ms rest h
      match toks with
      | .str k :: .colon :: toks1 =>
        simp only [parseMembers] at h
        split at h
        · rename_i v rest0 hV
          obtain ⟨hlt, hfuel⟩ := ihV _ _ _ _ hV
          split at h
          · simp at h
          · rename_i ms1 rest1 hE
            simp only [Option.some.injEq, Prod.mk.injEq] at h
            obtain ⟨rfl, rfl⟩ := h
            obtain ⟨hlt1, hfuel1⟩ := ihM _ _ _ _ hE
            simp only [List.length_cons] at hlt hfuel ⊢
            refine ⟨by omega, fun m hm1 => ?_⟩
            obtain ⟨m1, rfl, hm2, hm3⟩ : ∃ m1, m = m1 + 1 ∧
                toks1.length - (rest0.length + 1) ≤ m1 ∧ rest0.length - rest1.length ≤ m1 :=
              ⟨m - 1, by omega, by omega, by omega⟩
            simp only [parseMembers, hfuel m1 hm2, hfuel1 m1 hm3]
        · rename_i v rest0 hV
          simp only [Option.some.injEq, Prod.mk.injEq] at h
          obtain ⟨rfl, rfl⟩ := h
          obtain ⟨hlt, hfuel⟩ := ihV _ _ _ _ hV
          simp only [List.length_cons] at hlt hfuel ⊢
          refine ⟨by omega, fun m hm1 => ?_⟩
          obtain ⟨m1, rfl, hm2⟩ : ∃ m1, m = m1 + 1 ∧ toks1.length - (rest0.length + 1) ≤ m1 :=
            ⟨m - 1, by omega, by omega⟩
          simp only [parseMembers, hfuel m1 hm2]
        · simp at h
      | [] | [_] | .lbrace :: _ :: _ | .rbrace :: _ :: _ | .lbrack :: _ :: _ | .rbrack :: _ :: _
      | .colon :: _ :: _ | .comma :: _ :: _ | .num _ :: _ :: _ | .tru :: _ :: _ | .fls :: _ :: _
      | .null :: _ :: _ => simp [parseMembers] at h
      | .str _ :: .lbrace :: _ | .str _ :: .rbrace :: _ | .str _ :: .lbrack :: _
      | .str _ :: .rbrack :: _ | .str _ :: .comma :: _ | .str _ :: .str _ :: _
      | .str _ :: .num _ :: _ | .str _ :: .tru :: _ | .str _ :: .fls :: _ | .str _ :: .null :: _ =>
        simp [parseMembers] at h

/-- The fuel `jsonParse` passes on is enough: a token list that parses with some
fuel parses with `toks.length + 1`, to the same value. -/
theorem parseValue_fuel (n d : Nat) (toks rest : List Token) (v : JValue)
    (h : parseValue n d toks = some (v, rest)) :
    parseValue (toks.length + 1) d toks = some (v, rest) :=
  ((parse_fuel n).1 d toks v rest h).2 _ (by omega)

theorem errorf_plain (reason : Bytes) (h : ∀ c ∈ reason, c ≠ 0x25) :
    (GoError.errorf reason []).Error = some reason :=
  doPrintf_done reason h

/-! ## The claims -/

/-- C1: when the response has status 200 and its body parses as an envelope `y`,
`Search` returns a result and no error; the result has as many packages as `y` has
hits, and the package at index `i` is the `_source` record of the hit at index `i`. -/
theorem Search_packages_of_hits (t : Transport) (input : Input) (x : Bytes) (y : Response)
    (h : Answers t input 200 x) (hy : Unmarshal x = .ok y) :
    ∃ out, Search t input = (some out, none) ∧
      out.Packages.length = y.Hits.Hits.length ∧
      ∀ i (hi : i < y.Hits.Hits.length), out.Packages[i]? = some (y.Hits.Hits[i]).Package := by
  refine ⟨⟨input, copyPackages y.Hits.Hits⟩, ?_, ?_, ?_⟩
  · rw [Search_eq_interpret t input 200 x h]
    simp [interpret, hy]
  · simp [copyPackages_eq]
  · intro i hi
    simp [copyPackages_eq, hi]

/-- C1 at a response of status 200 whose body holds two hits. -/
theorem Search_packages_of_hits_witness :
    Answers (replyWith 200 sampleHits) sampleInput 200 sampleHits ∧
    Unmarshal sampleHits = .ok sampleHitsResponse ∧
    ∃ out, Search (replyWith 200 sampleHits) sampleInput = (some out, none) ∧
      out.Packages.length = sampleHitsResponse.Hits.Hits.length ∧
      ∀ i (hi : i < sampleHitsResponse.Hits.Hits.length),
        out.Packages[i]? = some (sampleHitsResponse.Hits.Hits[i]).Package :=
  ⟨answers_replyWith _ _ _, by decide!,
    Search_packages_of_hits _ _ _ _ (answers_replyWith _ _ _) (by decide!)⟩

/-- C2 as stated fails: for the query made of the single byte 0xFF, which is not
UTF-8, the body is valid JSON but its primary-match field reads back as U+FFFD,
not as the query. -/
theorem formatQuery_roundtrip_fails :
    (jsonParse (formatQuery [0xFF]).1).bind (fun v => v.multiMatch "query")
        = some [0xEF, 0xBF, 0xBD] ∧
      (jsonParse (formatQuery [0xFF]).1).bind (fun v => v.multiMatch "query") ≠ some [0xFF] := by
  decide!

/-- C2, amended: for every query string `formatQuery` returns no error and a body
that is valid JSON, and the field
`query.bool.must[0].dis_max.queries[0].multi_match.query` of the parsed body is the
query coerced to valid UTF-8 (every byte that starts no well-formed sequence
replaced by U+FFFD); so for every query that is valid UTF-8 (spaces, double quotes,
backslashes and control characters included) the field is the query, byte for
byte. -/
theorem formatQuery_roundtrip (q : Bytes) :
    (formatQuery q).2 = none ∧
      ∃ v, jsonParse (formatQuery q).1 = some v ∧
        v.multiMatch "query" = some (toValidUTF8 q) ∧
        (ValidString q = true → v.multiMatch "query" = some q) := by
  obtain ⟨v, hv, h1, _, _⟩ := formatQuery_parse q
  refine ⟨formatQuery_no_error q, v, hv, h1, fun h => ?_⟩
  rw [h1, toValidUTF8_of_wellFormed q (wellFormed_of_valid q h)]

/-- C2, amended, at the query `fire "fox" \`, tab, line feed. -/
theorem formatQuery_roundtrip_witness :
    ValidString (bytes "fire \"fox\" \\ \t\n") = true ∧
      (formatQuery (bytes "fire \"fox\" \\ \t\n")).2 = none ∧
      ∃ v, jsonParse (formatQuery (bytes "fire \"fox\" \\ \t\n")).1 = some v ∧
        v.multiMatch "query" = some (bytes "fire \"fox\" \\ \t\n") :=
  match formatQuery_roundtrip (bytes "fire \"fox\" \\ \t\n") with
  | ⟨h0, v, hv, _, h2⟩ => ⟨by decide, h0, v, hv, h2 (by decide)⟩

/-- C3 fails on the code: for the channel `23.05 test` the locator holds
`23.05+test`; the space is written as a plus sign, not as `%20`. -/
theorem formatURL_space :
    formatURL (bytes "23.05 test")
        = bytes "https://nixos-search-7-1733963800.us-east-1.bonsaisearch.net:443/latest-37-nixos-23.05+test/_search" ∧
      ¬ (bytes "23.05%20test" <:+: formatURL (bytes "23.05 test")) := by
  decide!

/-- C4 fails on the code: the reason text is used as a format. For a response of
status 400, which the retrying client hands over, whose error has the type
`parsing_exception` and the reason `bad %s`, `Search` returns no result and an error
with the message `bad %!s(MISSING)`, not `bad %s`; for the reason
`100% of shards failed` the message is `100%!o(MISSING)f shards failed`. -/
theorem Search_reason_as_format :
    retried 400 = false ∧
      (Unmarshal (sampleFailure "bad %s")).toOption.map (fun y => y.Error)
        = some (some ⟨bytes "parsing_exception", bytes "bad %s", [], []⟩) ∧
      Search (replyWith 400 (sampleFailure "bad %s")) sampleInput
        = (none, some (.errorf (bytes "bad %s") [])) ∧
      (GoError.errorf (bytes "bad %s") []).Error = some (bytes "bad %!s(MISSING)") ∧
      (GoError.errorf (bytes "bad %s") []).Error ≠ some (bytes "bad %s") ∧
      Search (replyWith 400 (sampleFailure "100% of shards failed")) sampleInput
        = (none, some (.errorf (bytes "100% of shards failed") [])) ∧
      (GoError.errorf (bytes "100% of shards failed") []).Error
        = some (bytes "100%!o(MISSING)f shards failed") := by
  decide!

/-- C5: when the status is not 200 and the body parses as an envelope whose error
has the type `index_not_found_exception`, `Search` returns no result and an error
whose message is `API failed with status=<s>: index=<r> does not exist (invalid
--channel=<c>)`, with the status in decimal, the error's `resource.id` and the
channel of the input; the message holds the channel and the resource id, whatever
the reason text is. -/
theorem Search_index_not_found (t : Transport) (input : Input) (s : Int) (x : Bytes)
    (y : Response) (e : Error) (h : Answers t input s x) (hs : s ≠ 200)
    (hy : Unmarshal x = .ok y) (he : y.Error = some e)
    (ht : e.Typ = bytes "index_not_found_exception") :
    ∃ err msg, Search t input = (none, some err) ∧ err.Error = some msg ∧
      msg = bytes "API failed with status=" ++ fmtInt s ++ bytes ": index=" ++ e.ResourceID ++
        bytes " does not exist (invalid --channel=" ++ input.Channel ++ bytes ")" ∧
      input.Channel <:+: msg ∧ e.ResourceID <:+: msg := by
  refine ⟨.errorf
    (bytes "API failed with status=%d: index=%s does not exist (invalid --channel=%s)")
    [.int s, .str e.ResourceID, .str input.Channel], _, ?_,
    Sprintf_notFound s e.ResourceID input.Channel, ?_, ?_, ?_⟩
  · rw [Search_eq_interpret t input s x h]
    simp [interpret, hy, hs, he, ht]
  · simp [List.append_assoc]
  · exact ⟨bytes "API failed with status=" ++ (fmtInt s ++ (bytes ": index=" ++ (e.ResourceID ++
      bytes " does not exist (invalid --channel="))), bytes ")", by simp [List.append_assoc]⟩
  · exact ⟨bytes "API failed with status=" ++ (fmtInt s ++ bytes ": index="),
      bytes " does not exist (invalid --channel=" ++ (input.Channel ++ bytes ")"),
      by simp [List.append_assoc]⟩

/-- C5 at the status 404, the channel `bogus` and the resource id
`latest-37-nixos-bogus`. -/
theorem Search_index_not_found_witness :
    Answers (replyWith 404 sampleNotFound) ⟨bytes "bogus", bytes "firefox"⟩ 404 sampleNotFound ∧
    Unmarshal sampleNotFound = .ok sampleNotFoundResponse ∧
    ∃ err msg, Search (replyWith 404 sampleNotFound) ⟨bytes "bogus", bytes "firefox"⟩
        = (none, some err) ∧ err.Error = some msg ∧
      msg = bytes "API failed with status=" ++ fmtInt 404 ++ bytes ": index=" ++
        bytes "latest-37-nixos-bogus" ++
        bytes " does not exist (invalid --channel=" ++ bytes "bogus" ++ bytes ")" ∧
      bytes "bogus" <:+: msg ∧ bytes "latest-37-nixos-bogus" <:+: msg :=
  ⟨answers_replyWith _ _ _, by decide!,
    Search_index_not_found (replyWith 404 sampleNotFound) ⟨bytes "bogus", bytes "firefox"⟩ 404
      sampleNotFound sampleNotFoundResponse
      ⟨bytes "index_not_found_exception", bytes "no such index", bytes "index_or_alias",
        bytes "latest-37-nixos-bogus"⟩
      (answers_replyWith _ _ _) (by decide) (by decide!) rfl rfl⟩

/-- C6: when the status is not 200 and the body parses as an envelope without an
error object, `Search` returns no result and an error whose message is
`API failed with status=<s>: <b>`: the status in decimal, then the body as it was
received. -/
theorem Search_unexpected_status (t : Transport) (input : Input) (s : Int) (x : Bytes)
    (y : Response) (h : Answers t input s x) (hs : s ≠ 200) (hy : Unmarshal x = .ok y)
    (he : y.Error = none) :
    ∃ err, Search t input = (none, some err) ∧
      err.Error = some (bytes "API failed with status=" ++ fmtInt s ++ bytes ": " ++ x) := by
  refine ⟨.errorf (bytes "API failed with status=%d: %s") [.int s, .str x], ?_, ?_⟩
  · rw [Search_eq_interpret t input s x h]
    simp only [interpret, hy, hs, he, ne_eq, not_false_eq_true, if_true]
  · simp [GoError.Error, Sprintf_unexpected, List.append_assoc]

/-- C6 at the status 401 and a body without an error object. -/
theorem Search_unexpected_status_witness :
    Answers (replyWith 401 sampleNoError) sampleInput 401 sampleNoError ∧
    Unmarshal sampleNoError = .ok Response.zero ∧
    ∃ err, Search (replyWith 401 sampleNoError) sampleInput = (none, some err) ∧
      err.Error = some (bytes "API failed with status=" ++ fmtInt 401 ++ bytes ": " ++
        sampleNoError) :=
  ⟨answers_replyWith _ _ _, by decide!,
    Search_unexpected_status _ _ _ _ Response.zero (answers_replyWith _ _ _) (by decide)
      (by decide!) rfl⟩

/-- C7: when the body of the response is not valid JSON, `Search` returns no result
and the error of `json.Unmarshal`, whatever the status code is (200 included): the
body is parsed before the status is looked at. -/
theorem Search_invalid_json (t : Transport) (input : Input) (s : Int) (x : Bytes)
    (h : Answers t input s x) (hx : jsonParse x = none) :
    Search t input = (none, some .jsonInvalid) := by
  rw [Search_eq_interpret t input s x h]
  simp [interpret, Unmarshal, hx]

/-- C7 at the status 200 and a body that is cut short. -/
theorem Search_invalid_json_witness :
    Answers (replyWith 200 (bytes "\x7b\"hits\":\x7b\"hits\":[\x7b\"_id\":\"1\"")) sampleInput 200
      (bytes "\x7b\"hits\":\x7b\"hits\":[\x7b\"_id\":\"1\"") ∧
    (jsonParse (bytes "\x7b\"hits\":\x7b\"hits\":[\x7b\"_id\":\"1\"")).isNone = true ∧
    Search (replyWith 200 (bytes "\x7b\"hits\":\x7b\"hits\":[\x7b\"_id\":\"1\"")) sampleInput
      = (none, some .jsonInvalid) :=
  ⟨answers_replyWith _ _ _, by decide,
    Search_invalid_json _ _ 200 _ (answers_replyWith _ _ _)
      (Option.isNone_iff_eq_none.mp (by decide))⟩

/-- C8 as stated fails: for the query `a`, space, 0xFF, which is not UTF-8, the
`_name` field reads back with U+FFFD in the place of the byte 0xFF. -/
theorem matchName_fails :
    (jsonParse (formatQuery [0x61, 0x20, 0xFF]).1).bind (fun v => v.multiMatch "_name")
        = some (bytes "multi_match_a_" ++ [0xEF, 0xBF, 0xBD]) ∧
      (jsonParse (formatQuery [0x61, 0x20, 0xFF]).1).bind (fun v => v.multiMatch "_name")
        ≠ some (bytes "multi_match_" ++ [0x61, 0x5F, 0xFF]) := by
  decide!

/-- C8, amended: for every query string the `_name` field of the `multi_match`
clause of the body reads back as `multi_match_` followed by the query in which every
space (0x20) is replaced by one underscore (0x5F) and every other byte is kept,
coerced to valid UTF-8; so for every query that is valid UTF-8 it reads back as
exactly that string. -/
theorem matchName_decodes (q : Bytes) :
    ∃ v, jsonParse (formatQuery q).1 = some v ∧
      v.multiMatch "_name" = some (toValidUTF8
        (bytes "multi_match_" ++ q.map fun c => if c = 0x20 then 0x5F else c)) ∧
      (ValidString q = true → v.multiMatch "_name"
        = some (bytes "multi_match_" ++ q.map fun c => if c = 0x20 then 0x5F else c)) := by
  obtain ⟨v, hv, _, h2, _⟩ := formatQuery_parse q
  refine ⟨v, hv, h2, fun h => ?_⟩
  rw [h2, toValidUTF8_of_wellFormed _ (wellFormed_matchName q (wellFormed_of_valid q h))]
  rfl

/-- C8, amended, at the queries `fire fox`, the empty one, and `a`, two spaces, `b`. -/
theorem matchName_decodes_witness :
    (ValidString (bytes "fire fox") = true ∧
      ∃ v, jsonParse (formatQuery (bytes "fire fox")).1 = some v ∧
        v.multiMatch "_name" = some (bytes "multi_match_fire_fox")) ∧
    (ValidString [] = true ∧
      ∃ v, jsonParse (formatQuery []).1 = some v ∧
        v.multiMatch "_name" = some (bytes "multi_match_")) ∧
    (ValidString (bytes "a  b") = true ∧
      ∃ v, jsonParse (formatQuery (bytes "a  b")).1 = some v ∧
        v.multiMatch "_name" = some (bytes "multi_match_a__b")) :=
  ⟨⟨by decide, match matchName_decodes (bytes "fire fox") with
      | ⟨v, hv, _, h2⟩ => ⟨v, hv, h2 (by decide)⟩⟩,
    ⟨by decide, match matchName_decodes [] with
      | ⟨v, hv, _, h2⟩ => ⟨v, hv, h2 (by decide)⟩⟩,
    ⟨by decide, match matchName_decodes (bytes "a  b") with
      | ⟨v, hv, _, h2⟩ => ⟨v, hv, h2 (by decide)⟩⟩⟩

/-- C9 as stated fails: for the query made of the single byte 0xC3, a sequence cut
short, the wildcard value reads back as `*`, U+FFFD, `*`. -/
theorem wildcard_fails :
    (jsonParse (formatQuery [0xC3]).1).bind (fun v => v.wildcardValue)
        = some [0x2A, 0xEF, 0xBF, 0xBD, 0x2A] ∧
      (jsonParse (formatQuery [0xC3]).1).bind (fun v => v.wildcardValue)
        ≠ some [0x2A, 0xC3, 0x2A] := by
  decide!

/-- C9, amended: for every query string the `value` field of the wildcard clause on
`package_attr_name` reads back as `*`, the query, `*`, coerced to valid UTF-8; so for
every query that is valid UTF-8 it reads back as exactly `*`, the query, `*`, with
every byte of the query kept as it is. -/
theorem wildcard_decodes (q : Bytes) :
    ∃ v, jsonParse (formatQuery q).1 = some v ∧
      v.wildcardValue = some (toValidUTF8 (bytes "*" ++ q ++ bytes "*")) ∧
      (ValidString q = true → v.wildcardValue = some (bytes "*" ++ q ++ bytes "*")) := by
  obtain ⟨v, hv, _, _, h3⟩ := formatQuery_parse q
  have e : bytes "*" ++ q ++ bytes "*" = 0x2A :: (q ++ [0x2A]) := by simp [bytes]
  refine ⟨v, hv, by rw [e]; exact h3, fun h => ?_⟩
  rw [e, h3, toValidUTF8_of_wellFormed _ (wellFormed_wildcard q (wellFormed_of_valid q h))]

/-- C9, amended, at the queries `fire fox`, the empty one, and `a*b?"c"`. -/
theorem wildcard_decodes_witness :
    (ValidString (bytes "fire fox") = true ∧
      ∃ v, jsonParse (formatQuery (bytes "fire fox")).1 = some v ∧
        v.wildcardValue = some (bytes "*fire fox*")) ∧
    (ValidString [] = true ∧
      ∃ v, jsonParse (formatQuery []).1 = some v ∧ v.wildcardValue = some (bytes "**")) ∧
    (ValidString (bytes "a*b?\"c\"") = true ∧
      ∃ v, jsonParse (formatQuery (bytes "a*b?\"c\"")).1 = some v ∧
        v.wildcardValue = some (bytes "*a*b?\"c\"*")) :=
  ⟨⟨by decide, match wildcard_decodes (bytes "fire fox") with
      | ⟨v, hv, _, h2⟩ => ⟨v, hv, h2 (by decide)⟩⟩,
    ⟨by decide, match wildcard_decodes [] with
      | ⟨v, hv, _, h2⟩ => ⟨v, hv, h2 (by decide)⟩⟩,
    ⟨by decide, match wildcard_decodes (bytes "a*b?\"c\"") with
      | ⟨v, hv, _, h2⟩ => ⟨v, hv, h2 (by decide)⟩⟩⟩

/-- C10: `Search` returns exactly one of a result and an error; and when the
response has the status `s` and the body `x`, it returns a result if and only if
`s` is 200 and `x` parses as the envelope, so a response of another status yields
no package list, whatever its body holds. -/
theorem Search_one_outcome (t : Transport) (input : Input) :
    ((Search t input).1.isSome = !(Search t input).2.isSome) ∧
      ∀ (s : Int) (x : Bytes), Answers t input s x →
        ((Search t input).1.isSome = true ↔ s = 200 ∧ ∃ y, Unmarshal x = .ok y) := by
  constructor
  · have hq := formatQuery_no_error input.Query
    unfold Search
    generalize formatQuery input.Query = fq at *
    obtain ⟨payload, err⟩ := fq
    simp only at hq
    subst hq
    simp only
    cases t.NewRequest (bytes "POST") (formatURL input.Channel) payload with
    | some err => rfl
    | none =>
      simp only
      cases t.Do (newRequest (formatURL input.Channel) payload) with
      | error err => rfl
      | ok resp =>
        simp only
        cases resp.Body with
        | error err => rfl
        | ok x =>
          simp only [interpret]
          cases Unmarshal x with
          | error err => rfl
          | ok y =>
            simp only
            split_ifs
            · cases y.Error with
              | none => rfl
              | some e => simp only; split_ifs <;> rfl
            · rfl
  · intro s x h
    rw [Search_eq_interpret t input s x h]
    unfold interpret
    cases Unmarshal x with
    | error err => simp
    | ok y =>
      by_cases hs : s = 200
      · simp [hs]
      · simp only [hs, ne_eq, not_false_eq_true, if_true, false_and, iff_false]
        cases y.Error with
        | none => simp
        | some e => simp only; split_ifs <;> simp

/-- C10 at the status 500 and a body that holds hits: no result is returned. -/
theorem Search_one_outcome_witness :
    ((Search (replyWith 500 sampleHits) sampleInput).1.isSome
        = !(Search (replyWith 500 sampleHits) sampleInput).2.isSome) ∧
      (Answers (replyWith 500 sampleHits) sampleInput 500 sampleHits ∧
        ((Search (replyWith 500 sampleHits) sampleInput).1.isSome = true ↔
          (500 : Int) = 200 ∧ ∃ y, Unmarshal sampleHits = .ok y)) :=
  ⟨(Search_one_outcome (replyWith 500 sampleHits) sampleInput).1,
    answers_replyWith _ _ _,
    (Search_one_outcome (replyWith 500 sampleHits) sampleInput).2 500 sampleHits
      (answers_replyWith _ _ _)⟩

/-! ## Lemmas for the claims on the locator, the template and the envelope -/

theorem urlHead_eq : textBefore templateURL = urlHead := by decide

theorem urlTail_eq : afterDirective templateURL = urlTail := by decide

theorem QueryEscape_unreserved (s : Bytes) (h : ∀ c ∈ s, shouldEscape c = false) :
    QueryEscape s = s := by
  induction s with
  | nil => rfl
  | cons c s ih =>
    have hc := h c (List.mem_cons_self _ _)
    have hs := ih fun d hd => h d (List.mem_cons_of_mem _ hd)
    have h20 : c ≠ 0x20 := by
      intro e; subst e; revert hc; decide
    unfold QueryEscape at hs ⊢
    simp only [List.map_cons, List.flatten_cons, h20, if_false, hc, Bool.false_eq_true]
    rw [hs]; rfl

theorem upperhex_allowed (n : Nat) (h : n < 16) :
    (0x41 ≤ upperhex n ∧ upperhex n ≤ 0x5A) ∨ (0x30 ≤ upperhex n ∧ upperhex n ≤ 0x39) := by
  unfold upperhex
  split_ifs <;> omega

/-- Every byte `QueryEscape` writes is an ASCII letter, a digit, or one of
`-`, `_`, `.`, `~`, `%` and `+`. -/
theorem QueryEscape_bytes (s : Bytes) :
    ∀ c ∈ QueryEscape s, (0x61 ≤ c ∧ c ≤ 0x7A) ∨ (0x41 ≤ c ∧ c ≤ 0x5A) ∨ (0x30 ≤ c ∧ c ≤ 0x39) ∨
      c = 0x2D ∨ c = 0x5F ∨ c = 0x2E ∨ c = 0x7E ∨ c = 0x25 ∨ c = 0x2B := by
  intro c hc
  unfold QueryEscape at hc
  simp only [List.mem_flatten, List.mem_map] at hc
  obtain ⟨l, ⟨b, _, rfl⟩, hcl⟩ := hc
  split_ifs at hcl with h1 h2
  · simp at hcl; omega
  · simp only [List.mem_cons, List.mem_singleton, List.not_mem_nil, or_false] at hcl
    rcases hcl with rfl | rfl | rfl
    · omega
    · have := upperhex_allowed (b / 16 % 16) (Nat.mod_lt _ (by omega)); omega
    · have := upperhex_allowed (b % 16) (Nat.mod_lt _ (by omega)); omega
  · simp only [List.mem_singleton] at hcl
    subst hcl
    simp only [shouldEscape, Bool.not_eq_true] at h2
    split_ifs at h2 <;> omega

/-- The outcome of `interpret` on a response of status 200 whose body parses. -/
theorem interpret_ok (input : Input) (x : Bytes) (y : Response) (hy : Unmarshal x = .ok y) :
    interpret input 200 x = (some ⟨input, y.Hits.Hits.map fun h => h.Package⟩, none) := by
  simp [interpret, hy, copyPackages_eq]

set_option maxRecDepth 100000 in
set_option maxHeartbeats 4000000 in
/-- The fixed fields of a request body, whatever strings its three slots hold. -/
theorem parse_body_fixed (a b c : Bytes) :
    ∃ v, parseValue ((bodyTokens a b c).length + 1) 0 (bodyTokens a b c) = some (v, []) ∧
      v.numAt [.key "from"] = some (bytes "0") ∧
      v.numAt [.key "size"] = some (bytes "50") ∧
      v.strAt [.key "query", .key "bool", .key "filter", .idx 0, .key "term", .key "type",
        .key "value"] = some (bytes "package") ∧
      v.numAt [.key "query", .key "bool", .key "must", .idx 0, .key "dis_max",
        .key "tie_breaker"] = some (bytes "0.7") ∧
      v.boolAt [.key "query", .key "bool", .key "must", .idx 0, .key "dis_max", .key "queries",
        .idx 1, .key "wildcard", .key "package_attr_name", .key "case_insensitive"] = some true :=
  ⟨_, rfl, rfl, rfl, rfl, rfl, rfl⟩

theorem template_split :
    bytes templatePayload = payload0 ++ (bytes "%s" ++ (payload1 ++ (bytes "%s" ++
      (payload2 ++ (bytes "%s" ++ payload3))))) := by
  decide!

theorem payload_no_percent :
    ∀ c ∈ payload0 ++ (payload1 ++ (payload2 ++ payload3)), c ≠ 0x25 := by
  decide!

theorem isField_fold (name : String) (key : Bytes) (h : isField name key = true) :
    foldName key = foldName (bytes name) := by
  simp only [isField, Bool.or_eq_true, decide_eq_true_eq] at h
  rcases h with h | h
  · rw [h]
  · exact h

theorem isField_other (name other : String) (key : Bytes) (h : isField name key = true)
    (hne : foldName (bytes name) ≠ foldName (bytes other)) : isField other key = false := by
  have hf := isField_fold name key h
  simp only [isField, Bool.or_eq_false_iff, decide_eq_false_iff_not]
  constructor
  · intro e; rw [e] at hf; exact hne hf.symm
  · rw [hf]; exact hne

/-- A member that no struct value can take makes the whole object fail. -/
theorem storeMembers_none {α : Type} (f : α → Bytes → JValue → Option α)
    (ms : List (Bytes × JValue)) (m : Bytes × JValue) (hm : m ∈ ms)
    (hf : ∀ x, f x m.1 m.2 = none) : ∀ x, storeMembers f x ms = none := by
  induction ms with
  | nil => simp at hm
  | cons m0 ms ih =>
    intro x
    simp only [storeMembers]
    rcases List.mem_cons.mp hm with rfl | h
    · rw [hf x]
    · cases f x m0.1 m0.2 with
      | none => rfl
      | some x1 => exact ih h x1

/-- An element that no slice element can take makes the whole array fail. -/
theorem storeElems_none {α : Type} (zero : α) (store : α → JValue → Option α)
    (es : List JValue) (e : JValue) (he : e ∈ es) (hf : ∀ x, store x e = none) :
    ∀ old, storeElems zero store old es = none := by
  induction es with
  | nil => simp at he
  | cons e0 es ih =>
    intro old
    simp only [storeElems]
    rcases List.mem_cons.mp he with rfl | h
    · rw [hf]
    · cases store (old.headD zero) e0 with
      | none => rfl
      | some x => simp only; rw [ih h]

theorem storeStruct_none {α : Type} (f : α → Bytes → JValue → Option α) (old : α) (w : JValue)
    (h1 : w.isNull = false) (h2 : w.isObj = false) : storeStruct f old w = none := by
  cases w <;> simp_all [storeStruct, JValue.isNull, JValue.isObj]

theorem storeSlice_none {α : Type} (zero : α) (store : α → JValue → Option α) (old : List α)
    (w : JValue) (h1 : w.isNull = false) (h2 : w.isArr = false) :
    storeSlice zero store old w = none := by
  cases w <;> simp_all [storeSlice, JValue.isNull, JValue.isArr]

/-- The member `hits` of the envelope goes to the field `Hits`. -/
theorem Response_storeField_hits (x : Response) (k : Bytes) (w : JValue)
    (hk : isField "hits" k = true) :
    Response.storeField x k w
      = (storeStruct HitList.storeField x.Hits w).map fun s => { x with Hits := s } := by
  have h1 := isField_other "hits" "error" k hk (by decide)
  have h2 := isField_other "hits" "status" k hk (by decide)
  simp [Response.storeField, h1, h2, hk]

/-- Members that name none of the fields of the envelope leave it as it is. -/
theorem storeMembers_skip (ms : List (Bytes × JValue))
    (h : ∀ m ∈ ms, isField "error" m.1 = false ∧ isField "status" m.1 = false ∧
      isField "hits" m.1 = false) (x : Response) :
    storeMembers Response.storeField x ms = some x := by
  induction ms with
  | nil => rfl
  | cons m ms ih =>
    obtain ⟨h1, h2, h3⟩ := h m (List.mem_cons_self _ _)
    have e : Response.storeField x m.1 m.2 = some x := by
      simp [Response.storeField, h1, h2, h3]
    simp only [storeMembers, e]
    exact ih fun m1 hm1 => h m1 (List.mem_cons_of_mem _ hm1)

theorem interpret_mismatch (input : Input) (status : Int) (x : Bytes) (v : JValue)
    (hv : jsonParse x = some v) (hs : storeStruct Response.storeField Response.zero v = none) :
    interpret input status x = (none, some .jsonMismatch) := by
  simp [interpret, Unmarshal, hv, hs]


/-! ## The claims, continued -/

/-- C11: two responses of status 200 whose bodies parse to envelopes with the same
hits give the same result, whatever their `error` and `status` fields hold; and the
result is the list of the hits' packages with no error, also when the envelope
carries an error object (of the type `index_not_found_exception` or any other). -/
theorem Search_ignores_error (t1 t2 : Transport) (input : Input) (x1 x2 : Bytes)
    (y1 y2 : Response) (h1 : Answers t1 input 200 x1) (h2 : Answers t2 input 200 x2)
    (hy1 : Unmarshal x1 = .ok y1) (hy2 : Unmarshal x2 = .ok y2)
    (hh : y1.Hits.Hits = y2.Hits.Hits) :
    Search t1 input = Search t2 input ∧
      Search t1 input = (some ⟨input, y1.Hits.Hits.map fun h => h.Package⟩, none) := by
  rw [Search_eq_interpret t1 input 200 x1 h1, Search_eq_interpret t2 input 200 x2 h2,
    interpret_ok input x1 y1 hy1, interpret_ok input x2 y2 hy2, hh]
  exact ⟨rfl, rfl⟩

/-- C11 at two bodies with the same two hits, of which the second carries an error
object of the type `index_not_found_exception` and a status. -/
theorem Search_ignores_error_witness :
    Answers (replyWith 200 sampleHits) sampleInput 200 sampleHits ∧
    Answers (replyWith 200 sampleHitsWithError) sampleInput 200 sampleHitsWithError ∧
    Unmarshal sampleHits = .ok sampleHitsResponse ∧
    Unmarshal sampleHitsWithError = .ok sampleHitsWithErrorResponse ∧
    sampleHitsWithErrorResponse.Error.map (fun e => e.Typ)
      = some (bytes "index_not_found_exception") ∧
    sampleHitsResponse.Hits.Hits = sampleHitsWithErrorResponse.Hits.Hits ∧
    Search (replyWith 200 sampleHits) sampleInput
      = Search (replyWith 200 sampleHitsWithError) sampleInput ∧
    Search (replyWith 200 sampleHits) sampleInput
      = (some ⟨sampleInput, sampleHitsResponse.Hits.Hits.map fun h => h.Package⟩, none) :=
  ⟨answers_replyWith _ _ _, answers_replyWith _ _ _, by decide!, by decide!, by decide, by decide,
    Search_ignores_error _ _ _ _ _ sampleHitsResponse sampleHitsWithErrorResponse
      (answers_replyWith _ _ _) (answers_replyWith _ _ _) (by decide!) (by decide!) (by decide)⟩

/-- C12 as stated fails: the bodies `{}` and `null` are valid JSON without a hits
container, and with the status 200 `Search` returns a result with an empty package
list and no error. -/
theorem Search_empty_envelope :
    Search (replyWith 200 (bytes "\x7b\x7d")) sampleInput = (some ⟨sampleInput, []⟩, none) ∧
      Search (replyWith 200 (bytes "null")) sampleInput = (some ⟨sampleInput, []⟩, none) := by
  decide!

/-- C12, amended: for a response of status 200 whose body is valid JSON, `Search`
returns no result and the error of `json.Unmarshal` when the value has the wrong
JSON type for the envelope: when it is neither an object nor `null`, when a member
`hits` of it is neither an object nor `null`, when a member `hits` of that object is
neither an array nor `null`, or when an element of that array is neither an object
nor `null`. When the value is `null`, or an object none of whose members is named
`error`, `status` or `hits` (such as `{}`), `Search` returns a result with an empty
package list and no error. -/
theorem Search_wrong_shape (t : Transport) (input : Input) (x : Bytes) (v : JValue)
    (h : Answers t input 200 x) (hv : jsonParse x = some v) :
    (v.isNull = false → v.isObj = false → Search t input = (none, some .jsonMismatch)) ∧
    (∀ ms k w, v = .obj ms → (k, w) ∈ ms → isField "hits" k = true →
      w.isNull = false → w.isObj = false → Search t input = (none, some .jsonMismatch)) ∧
    (∀ ms k w hs k2 w2, v = .obj ms → (k, w) ∈ ms → isField "hits" k = true → w = .obj hs →
      (k2, w2) ∈ hs → isField "hits" k2 = true → w2.isNull = false → w2.isArr = false →
      Search t input = (none, some .jsonMismatch)) ∧
    (∀ ms k w hs k2 w2 es e, v = .obj ms → (k, w) ∈ ms → isField "hits" k = true →
      w = .obj hs → (k2, w2) ∈ hs → isField "hits" k2 = true → w2 = .arr es → e ∈ es →
      e.isNull = false → e.isObj = false → Search t input = (none, some .jsonMismatch)) ∧
    (v = .null ∨ (∃ ms, v = .obj ms ∧ ∀ m ∈ ms, isField "error" m.1 = false ∧
        isField "status" m.1 = false ∧ isField "hits" m.1 = false) →
      Search t input = (some ⟨input, []⟩, none)) := by
  rw [Search_eq_interpret t input 200 x h]
  refine ⟨?_, ?_, ?_, ?_, ?_⟩
  · intro h1 h2
    exact interpret_mismatch input 200 x v hv (storeStruct_none _ _ _ h1 h2)
  · intro ms k w hms hm hk h1 h2
    subst hms
    apply interpret_mismatch input 200 x _ hv
    refine storeMembers_none _ ms (k, w) hm (fun y => ?_) _
    rw [Response_storeField_hits y k w hk, storeStruct_none _ _ _ h1 h2]
    rfl
  · intro ms k w hs k2 w2 hms hm hk hw hm2 hk2 h1 h2
    subst hms hw
    apply interpret_mismatch input 200 x _ hv
    refine storeMembers_none _ ms (k, .obj hs) hm (fun y => ?_) _
    rw [Response_storeField_hits y k _ hk]
    have : storeStruct HitList.storeField y.Hits (.obj hs) = none := by
      refine storeMembers_none _ hs (k2, w2) hm2 (fun z => ?_) _
      simp [HitList.storeField, hk2, storeSlice_none _ _ _ _ h1 h2]
    rw [this]; rfl
  · intro ms k w hs k2 w2 es e hms hm hk hw hm2 hk2 hw2 he h1 h2
    subst hms hw hw2
    apply interpret_mismatch input 200 x _ hv
    refine storeMembers_none _ ms (k, .obj hs) hm (fun y => ?_) _
    rw [Response_storeField_hits y k _ hk]
    have : storeStruct HitList.storeField y.Hits (.obj hs) = none := by
      refine storeMembers_none _ hs (k2, .arr es) hm2 (fun z => ?_) _
      have : storeSlice Hit.zero (storeStruct Hit.storeField) z.Hits (.arr es) = none :=
        storeElems_none _ _ es e he (fun old => storeStruct_none _ _ _ h1 h2) _
      simp [HitList.storeField, hk2, this]
    rw [this]; rfl
  · intro hcase
    rcases hcase with rfl | ⟨ms, rfl, hms⟩
    · simp [interpret, Unmarshal, hv, storeStruct, Response.zero, copyPackages]
    · simp [interpret, Unmarshal, hv, storeStruct, storeMembers_skip ms hms, Response.zero,
        copyPackages]

/-- C12, amended, at the bodies `[]`, `{"hits":[]}`, `{"hits":{"hits":{}}}` and
`{"hits":{"hits":[1]}}`, which fail, and at the body `{}`, which gives an empty
list. -/
theorem Search_wrong_shape_witness :
    (jsonParse (bytes "[]")).map JValue.isArr = some true ∧
    Search (replyWith 200 (bytes "[]")) sampleInput = (none, some .jsonMismatch) ∧
    (jsonParse (bytes "\x7b\"hits\":[]\x7d")).isSome = true ∧
    Search (replyWith 200 (bytes "\x7b\"hits\":[]\x7d")) sampleInput
      = (none, some .jsonMismatch) ∧
    (jsonParse (bytes "\x7b\"hits\":\x7b\"hits\":\x7b\x7d\x7d\x7d")).isSome = true ∧
    Search (replyWith 200 (bytes "\x7b\"hits\":\x7b\"hits\":\x7b\x7d\x7d\x7d")) sampleInput
      = (none, some .jsonMismatch) ∧
    (jsonParse (bytes "\x7b\"hits\":\x7b\"hits\":[1]\x7d\x7d")).isSome = true ∧
    Search (replyWith 200 (bytes "\x7b\"hits\":\x7b\"hits\":[1]\x7d\x7d")) sampleInput
      = (none, some .jsonMismatch) ∧
    (jsonParse (bytes "\x7b\x7d")).map JValue.isObj = some true ∧
    Search (replyWith 200 (bytes "\x7b\x7d")) sampleInput = (some ⟨sampleInput, []⟩, none) :=
  ⟨by decide,
    (Search_wrong_shape _ sampleInput (bytes "[]") (.arr []) (answers_replyWith _ _ _) rfl).1
      rfl rfl,
    by decide,
    (Search_wrong_shape _ sampleInput (bytes "\x7b\"hits\":[]\x7d")
      (.obj [(bytes "hits", .arr [])]) (answers_replyWith _ _ _) rfl).2.1
      _ (bytes "hits") (.arr []) rfl (List.mem_singleton.mpr rfl) (by decide) rfl rfl,
    by decide,
    (Search_wrong_shape _ sampleInput (bytes "\x7b\"hits\":\x7b\"hits\":\x7b\x7d\x7d\x7d")
      (.obj [(bytes "hits", .obj [(bytes "hits", .obj [])])]) (answers_replyWith _ _ _) rfl).2.2.1
      _ (bytes "hits") _ _ (bytes "hits") (.obj []) rfl (List.mem_singleton.mpr rfl) (by decide)
      rfl (List.mem_singleton.mpr rfl) (by decide) rfl rfl,
    by decide,
    (Search_wrong_shape _ sampleInput (bytes "\x7b\"hits\":\x7b\"hits\":[1]\x7d\x7d")
      (.obj [(bytes "hits", .obj [(bytes "hits", .arr [.num (bytes "1")])])])
      (answers_replyWith _ _ _) rfl).2.2.2.1
      _ (bytes "hits") _ _ (bytes "hits") _ _ (.num (bytes "1")) rfl (List.mem_singleton.mpr rfl)
      (by decide) rfl (List.mem_singleton.mpr rfl) (by decide) rfl (List.mem_singleton.mpr rfl)
      rfl rfl,
    by decide,
    (Search_wrong_shape _ sampleInput (bytes "\x7b\x7d") (.obj []) (answers_replyWith _ _ _)
      rfl).2.2.2.2 (Or.inr ⟨[], rfl, by simp⟩)⟩

/-- C13: for every channel made only of ASCII letters, digits, `-`, `_`, `.` and
`~`, `formatURL` gives the fixed host and index name, then the channel as it is,
then `/_search`. -/
theorem formatURL_plain (channel : Bytes)
    (h : ∀ c ∈ channel, (0x61 ≤ c ∧ c ≤ 0x7A) ∨ (0x41 ≤ c ∧ c ≤ 0x5A) ∨ (0x30 ≤ c ∧ c ≤ 0x39) ∨
      c = 0x2D ∨ c = 0x5F ∨ c = 0x2E ∨ c = 0x7E) :
    formatURL channel
      = bytes "https://nixos-search-7-1733963800.us-east-1.bonsaisearch.net:443/latest-37-nixos-"
        ++ channel ++ bytes "/_search" := by
  have hq : QueryEscape channel = channel := by
    apply QueryEscape_unreserved
    intro c hc
    have := h c hc
    simp only [shouldEscape]
    split_ifs <;> first | rfl | omega
  rw [formatURL_eq, hq, urlHead_eq, urlTail_eq, List.append_assoc]
  rfl

/-- C13 at the channel `unstable`: the locator ends in
`latest-37-nixos-unstable/_search`. -/
theorem formatURL_plain_witness :
    (∀ c ∈ bytes "unstable", (0x61 ≤ c ∧ c ≤ 0x7A) ∨ (0x41 ≤ c ∧ c ≤ 0x5A) ∨
      (0x30 ≤ c ∧ c ≤ 0x39) ∨ c = 0x2D ∨ c = 0x5F ∨ c = 0x2E ∨ c = 0x7E) ∧
    formatURL (bytes "unstable")
      = bytes "https://nixos-search-7-1733963800.us-east-1.bonsaisearch.net:443/latest-37-nixos-"
        ++ bytes "unstable" ++ bytes "/_search" ∧
    bytes "latest-37-nixos-unstable/_search" <:+ formatURL (bytes "unstable") :=
  ⟨by decide, formatURL_plain (bytes "unstable") (by decide),
    by rw [formatURL_plain (bytes "unstable") (by decide)]; decide⟩

/-- C14: for every query the body `formatQuery` returns is `templatePayload` with
its three `%s` slots, the only percent signs of the template, replaced in this order
by the JSON literals of the query, of the match name and of the wildcard value; the
text around the slots is the same for every query (a percent sign in the query is
copied, not interpreted); and the parsed body has `from` 0, `size` 50, the filter
term `type.value` equal to `package`, the `tie_breaker` 0.7 and the wildcard's
`case_insensitive` true. -/
theorem formatQuery_template (q : Bytes) :
    bytes templatePayload = payload0 ++ (bytes "%s" ++ (payload1 ++ (bytes "%s" ++
      (payload2 ++ (bytes "%s" ++ payload3))))) ∧
    (∀ c ∈ payload0 ++ (payload1 ++ (payload2 ++ payload3)), c ≠ 0x25) ∧
    (formatQuery q).1 = payload0 ++ ((Marshal q).1 ++ (payload1 ++
      ((Marshal (bytes "multi_match_" ++ replaceSpaces q)).1 ++ (payload2 ++
        ((Marshal (bytes "*" ++ q ++ bytes "*")).1 ++ payload3))))) ∧
    ∃ v, jsonParse (formatQuery q).1 = some v ∧
      v.numAt [.key "from"] = some (bytes "0") ∧
      v.numAt [.key "size"] = some (bytes "50") ∧
      v.strAt [.key "query", .key "bool", .key "filter", .idx 0, .key "term", .key "type",
        .key "value"] = some (bytes "package") ∧
      v.numAt [.key "query", .key "bool", .key "must", .idx 0, .key "dis_max",
        .key "tie_breaker"] = some (bytes "0.7") ∧
      v.boolAt [.key "query", .key "bool", .key "must", .idx 0, .key "dis_max", .key "queries",
        .idx 1, .key "wildcard", .key "package_attr_name", .key "case_insensitive"] = some true := by
  refine ⟨template_split, payload_no_percent, ?_, ?_⟩
  · rw [formatQuery_eq]
    have e : bytes "*" ++ q ++ bytes "*" = 0x2A :: (q ++ [0x2A]) := by simp [bytes]
    rw [e]; rfl
  · obtain ⟨v, hv, h1, h2, h3, h4, h5⟩ :=
      parse_body_fixed (toValidUTF8 q) (toValidUTF8 (bytes "multi_match_" ++ replaceSpaces q))
        (toValidUTF8 (0x2A :: (q ++ [0x2A])))
    refine ⟨v, ?_, h1, h2, h3, h4, h5⟩
    rw [formatQuery_eq]
    simp only [jsonParse, lex_body, hv]

/-- C14 at the query `%s %d`: the directives of the query are copied into the three
literals. -/
theorem formatQuery_template_witness :
    (formatQuery (bytes "%s %d")).1 = payload0 ++ (bytes "\"%s %d\"" ++ (payload1 ++
      (bytes "\"multi_match_%s_%d\"" ++ (payload2 ++ (bytes "\"*%s %d*\"" ++ payload3))))) :=
  (formatQuery_template (bytes "%s %d")).2.2.1.trans (by decide!)

/-- C15: for every query `formatQuery` returns no error and the filled template
as the body: `json.Marshal` fails on none of the three strings, so none of the
branches `failed to encode query`, `failed to encode match name` and
`failed to encode value` is taken, and `Search` always goes on to build the
request. -/
theorem formatQuery_total (t : Transport) (input : Input) :
    (formatQuery input.Query).2 = none ∧
      (Marshal input.Query).2 = none ∧
      (Marshal (bytes "multi_match_" ++ replaceSpaces input.Query)).2 = none ∧
      (Marshal ((Sprintf (bytes "*%s*") [.str input.Query]).getD [])).2 = none ∧
      (formatQuery input.Query).1 = (Sprintf (bytes templatePayload)
        [.str (Marshal input.Query).1,
          .str (Marshal (bytes "multi_match_" ++ replaceSpaces input.Query)).1,
          .str (Marshal ((Sprintf (bytes "*%s*") [.str input.Query]).getD [])).1]).getD [] ∧
      (formatQuery input.Query).1 ≠ [] ∧
      Search t input =
        match t.NewRequest (bytes "POST") (formatURL input.Channel) (formatQuery input.Query).1 with
        | some err => (none, some err)
        | none =>
          match t.Do (newRequest (formatURL input.Channel) (formatQuery input.Query).1) with
          | .error err => (none, some err)
          | .ok resp =>
            match resp.Body with
            | .error err => (none, some err)
            | .ok x => interpret input resp.StatusCode x := by
  refine ⟨formatQuery_no_error _, rfl, rfl, rfl, by simp only [formatQuery, Marshal], ?_, ?_⟩
  · rw [formatQuery_eq]
    have : payload0 ≠ [] := by decide!
    intro h
    exact this (List.append_eq_nil.mp h).1
  · have hq := formatQuery_no_error input.Query
    unfold Search
    generalize formatQuery input.Query = fq at *
    obtain ⟨payload, err⟩ := fq
    simp only at hq
    subst hq
    rfl

/-- C16: when `Search` returns a result, the `Input` of the result is the input
the caller passed, channel and query as they were. -/
theorem Search_keeps_input (t : Transport) (input : Input) (out : Output)
    (h : (Search t input).1 = some out) :
    out.Input = input ∧ out.Input.Channel = input.Channel ∧ out.Input.Query = input.Query := by
  have key : out.Input = input := by
    have hq := formatQuery_no_error input.Query
    unfold Search at h
    generalize formatQuery input.Query = fq at *
    obtain ⟨payload, err⟩ := fq
    simp only at hq
    subst hq
    simp only at h
    cases hn : t.NewRequest (bytes "POST") (formatURL input.Channel) payload with
    | some err => rw [hn] at h; simp at h
    | none =>
      rw [hn] at h
      simp only at h
      cases hd : t.Do (newRequest (formatURL input.Channel) payload) with
      | error err => rw [hd] at h; simp at h
      | ok resp =>
        rw [hd] at h
        simp only at h
        cases hb : resp.Body with
        | error err => rw [hb] at h; simp at h
        | ok x =>
          rw [hb] at h
          simp only [interpret] at h
          cases hu : Unmarshal x with
          | error err => rw [hu] at h; simp at h
          | ok y =>
            rw [hu] at h
            simp only at h
            split_ifs at h
            · cases he : y.Error with
              | none => rw [he] at h; simp at h
              | some e => rw [he] at h; simp only at h; split_ifs at h
            · simp only [Option.some.injEq] at h
              rw [← h]
  exact ⟨key, by rw [key], by rw [key]⟩

/-- C16 at a search for `fire fox` on `unstable` that two hits answer. -/
theorem Search_keeps_input_witness :
    (Search (replyWith 200 sampleHits) sampleInput).1
        = some ⟨sampleInput, sampleHitsResponse.Hits.Hits.map fun h => h.Package⟩ ∧
      (Output.mk sampleInput (sampleHitsResponse.Hits.Hits.map fun h => h.Package)).Input.Channel
        = bytes "unstable" ∧
      (Output.mk sampleInput (sampleHitsResponse.Hits.Hits.map fun h => h.Package)).Input.Query
        = bytes "fire fox" :=
  have h : (Search (replyWith 200 sampleHits) sampleInput).1
      = some ⟨sampleInput, sampleHitsResponse.Hits.Hits.map fun h => h.Package⟩ := by decide!
  ⟨h, (Search_keeps_input _ _ _ h).2.1, (Search_keeps_input _ _ _ h).2.2⟩

/-- C17: for every channel the locator is the fixed host and index name, then a
middle part, then `/_search`, and every byte of the middle part is an ASCII letter,
a digit or one of `-`, `_`, `.`, `~`, `%` and `+`; so the middle part holds none of
`/`, `?`, `#`, `@` and `:`. -/
theorem formatURL_safe (channel : Bytes) :
    ∃ mid, formatURL channel
        = bytes "https://nixos-search-7-1733963800.us-east-1.bonsaisearch.net:443/latest-37-nixos-"
          ++ mid ++ bytes "/_search" ∧
      (∀ c ∈ mid, (0x61 ≤ c ∧ c ≤ 0x7A) ∨ (0x41 ≤ c ∧ c ≤ 0x5A) ∨ (0x30 ≤ c ∧ c ≤ 0x39) ∨
        c = 0x2D ∨ c = 0x5F ∨ c = 0x2E ∨ c = 0x7E ∨ c = 0x25 ∨ c = 0x2B) ∧
      (∀ c ∈ mid, c ≠ 0x2F ∧ c ≠ 0x3F ∧ c ≠ 0x23 ∧ c ≠ 0x40 ∧ c ≠ 0x3A) ∧
      bytes "https://nixos-search-7-1733963800.us-east-1.bonsaisearch.net:443/latest-37-nixos-"
        <+: formatURL channel ∧
      bytes "/_search" <:+ formatURL channel := by
  have e : formatURL channel
      = bytes "https://nixos-search-7-1733963800.us-east-1.bonsaisearch.net:443/latest-37-nixos-"
        ++ QueryEscape channel ++ bytes "/_search" := by
    rw [formatURL_eq, urlHead_eq, urlTail_eq, List.append_assoc]; rfl
  refine ⟨QueryEscape channel, e, QueryEscape_bytes channel, ?_, ?_, ?_⟩
  · intro c hc
    have := QueryEscape_bytes channel c hc
    omega
  · rw [e, List.append_assoc]; exact List.prefix_append _ _
  · rw [e]; exact List.suffix_append _ _

end NixSearch
